import Mathlib

/-!
# C0VM: a shallow embedding of `execute` from `src/c0vm.c`

The file embeds the fetch-decode-execute loop of the virtual machine as a
step function on an explicit machine state and proves properties of single
instructions and of short programs.

Conventions of the embedding.

* `int32_t` values are integers kept in `[-2^31, 2^31)`; every result that is
  handed to `push_int` is wrapped (`wrap32`), which is what the build's
  two's-complement arithmetic does.
* `size_t` and pointers are 64 bits wide; a pointer is its address, `0` is
  `NULL`, memory is a map from addresses to bytes, multi-byte objects are
  stored least significant byte first.
* The operand stack is a list whose head is the top of the stack.
* Whatever C leaves undefined (popping an empty stack, reading a code byte or
  a pool entry out of range, using a value of the wrong kind, reading a local
  that was never written) ends the run with `Stop.undefined_behaviour`.
-/

namespace C0VM

/-! ## Machine integers -/

/-- The value of an integer after conversion to `int32_t`. -/
def wrap32 (i : Int) : Int := (i + 2 ^ 31) % 2 ^ 32 - 2 ^ 31

/-- The bit pattern of an `int32_t`, read as a `uint32_t`. -/
def toU32 (i : Int) : Nat := (i % 2 ^ 32).toNat

/-- Being in the range of `int32_t`. -/
def isInt32 (i : Int) : Prop := -2 ^ 31 ≤ i ∧ i < 2 ^ 31

instance (i : Int) : Decidable (isInt32 i) := by unfold isInt32; infer_instance

/-- The cast `(int32_t)(signed char)b` of a code byte. -/
def sext8 (b : Nat) : Int := if b % 256 < 128 then (b % 256 : Nat) else (b % 256 : Nat) - 256

/-- The cast `(int16_t)x`. -/
def sext16 (x : Nat) : Int :=
  if x % 65536 < 32768 then (x % 65536 : Nat) else (x % 65536 : Nat) - 65536

/-- The cast `(uint16_t)x`. -/
def toU16 (x : Nat) : Nat := x % 65536

/-- The sum `pc + d` computed in `size_t`: the signed operand is converted to
`size_t` and the addition wraps at `2^64`. -/
def size_t_add (pc : Nat) (d : Int) : Nat := (((pc : Int) + d) % 2 ^ 64).toNat

/-- Pointer arithmetic on `char *`, on 64-bit addresses. -/
def ptr_add (p : Nat) (d : Int) : Nat := (((p : Int) + d) % 2 ^ 64).toNat

/-! ## Values (`lib/c0vm.h`) -/

/-- A C0 value: a 32-bit integer or a pointer (`0` is `NULL`). -/
inductive c0_value
  | int (i : Int)
  | ptr (p : Nat)
deriving DecidableEq

/-- Why a run stops. `returned` is the normal end of `execute`; the `c0_*`
constructors are the four trap functions of `lib/c0vm_abort.h`. -/
inductive Stop
  | returned (retval : Int)
  | c0_arith_error
  | c0_memory_error
  | c0_assertion_failure (msg : Nat)
  | c0_user_error (msg : Nat)
  | invalid_opcode
  | exit_failure
  | assertion_violation
  | undefined_behaviour
deriving DecidableEq

/-- Modelled from the spec: `int2val` of lib/c0vm.h is not in src; §4.1
`from_int`. The argument is converted to `int32_t`. -/
def int2val (i : Int) : c0_value := .int (wrap32 i)

/-- Modelled from the spec: `ptr2val` of lib/c0vm.h is not in src; §4.1
`from_ref`. -/
def ptr2val (p : Nat) : c0_value := .ptr p

/-- Modelled from the spec: `val2int` of lib/c0vm.h is not in src; §4.1
`int_of`. A pointer where an integer is expected is a bug of the bytecode. -/
def val2int : c0_value → Except Stop Int
  | .int i => pure i
  | .ptr _ => throw .undefined_behaviour

/-- Modelled from the spec: `val2ptr` of lib/c0vm.h is not in src; §4.1
`ref_of`. -/
def val2ptr : c0_value → Except Stop Nat
  | .ptr p => pure p
  | .int _ => throw .undefined_behaviour

/-- Modelled from the spec: `val_equal` of lib/c0vm.h is not in src; §4.1:
both integers with equal bit patterns, or both references to the same
address; values of different kinds are unequal. -/
def val_equal : c0_value → c0_value → Bool
  | .int a, .int b => toU32 a == toU32 b
  | .ptr a, .ptr b => a == b
  | _, _ => false

/-! ## Operand stack (`lib/c0v_stack.h`) and the helpers at the top of the file -/

/-- Modelled from the spec: `c0v_push` of lib/c0v_stack.h is not in src; §4.2. -/
def c0v_push (S : List c0_value) (v : c0_value) : List c0_value := v :: S

/-- Modelled from the spec: `c0v_pop` of lib/c0v_stack.h is not in src; §4.2.
Popping the empty stack is a bug of the bytecode. -/
def c0v_pop : List c0_value → Except Stop (c0_value × List c0_value)
  | [] => throw .undefined_behaviour
  | v :: S => pure (v, S)

def push_int (S : List c0_value) (i : Int) : List c0_value := c0v_push S (int2val i)

def pop_int (S : List c0_value) : Except Stop (Int × List c0_value) := do
  let (v, S) ← c0v_pop S
  let i ← val2int v
  pure (i, S)

def pop_ptr (S : List c0_value) : Except Stop (Nat × List c0_value) := do
  let (v, S) ← c0v_pop S
  let p ← val2ptr v
  pure (p, S)

def push_ptr (S : List c0_value) (x : Nat) : List c0_value := c0v_push S (ptr2val x)

/-! ## Memory -/

/-- The memory the bytecode can address: the bytes, the highest address handed
out so far, and the blocks (`base`, `size`) obtained from `xcalloc`. -/
structure Heap where
  mem : Nat → Nat
  brk : Nat
  blocks : List (Nat × Nat)

/-- Read `n` bytes at `a`, least significant first. -/
def load_le (m : Nat → Nat) (a : Nat) : Nat → Nat
  | 0 => 0
  | n + 1 => m a % 256 + 256 * load_le m (a + 1) n

/-- Write the `n` low bytes of `v` at `a`, least significant first. -/
def store_le (m : Nat → Nat) (a : Nat) : Nat → Nat → Nat → Nat
  | 0, _ => m
  | n + 1, v => store_le (fun x => if x = a then v % 256 else m x) (a + 1) n (v / 256)

/-- The read `*((int32_t *) a)`. -/
def load_int32 (h : Heap) (a : Nat) : Int := wrap32 (load_le h.mem a 4)

/-- The write `*((int32_t *) a) = x`. -/
def store_int32 (h : Heap) (a : Nat) (x : Int) : Heap :=
  { h with mem := store_le h.mem a 4 (toU32 x) }

/-- The read `*a` through a `void **`. -/
def load_ptr (h : Heap) (a : Nat) : Nat := load_le h.mem a 8

/-- The write `*a = b` through a `void **`. -/
def store_ptr (h : Heap) (a : Nat) (b : Nat) : Heap :=
  { h with mem := store_le h.mem a 8 b }

/-- The read `(int32_t) (*((char *) a))`; `char` is signed on the build host. -/
def load_char (h : Heap) (a : Nat) : Int := sext8 (h.mem a)

/-- The write `*((char *) a) = c`. -/
def store_char (h : Heap) (a : Nat) (c : Nat) : Heap :=
  { h with mem := fun x => if x = a then c % 256 else h.mem x }

/-- The size of `void *` on the build host. -/
def sizeof_ptr : Nat := 8

/-- Modelled from the spec: `xcalloc` of lib/xalloc.h is not in src; §4.3: a
reference to `nobj * size` zeroed bytes, non-null also when that is `0`.
Blocks are carved off increasing addresses, so a fresh block overlaps no
older one. -/
def xcalloc (h : Heap) (nobj size : Nat) : Nat × Heap :=
  let len := nobj * size
  let p := h.brk + 1
  (p, { mem := fun x => if p ≤ x ∧ x < p + len then 0 else h.mem x,
        brk := h.brk + max len 1,
        blocks := (p, len) :: h.blocks })

/-- Modelled from the spec: `c0_array` of lib/c0vm.h is not in src; §3: a
header `{ count: i32, elt_size: i32, elems: ptr }`. In memory `count` is at
offset 0, `elt_size` at offset 4 and `elems` at offset 8. -/
structure c0_array where
  count : Int
  elt_size : Int
  elems : Nat

/-- Read the header at address `a`. -/
def load_array (h : Heap) (a : Nat) : c0_array :=
  { count := load_int32 h a, elt_size := load_int32 h (a + 4), elems := load_ptr h (a + 8) }

/-- Write the header `arr` at address `a`, field by field. -/
def store_array (h : Heap) (a : Nat) (arr : c0_array) : Heap :=
  store_ptr (store_int32 (store_int32 h a arr.count) (a + 4) arr.elt_size) (a + 8) arr.elems

/-! ## Program image (`lib/c0vm.h`) and machine state -/

/-- Modelled from the spec: `struct function_info` of lib/c0vm.h is not in
src; §3: `{ code: bytes, num_args: u16, num_vars: u16 }`. -/
structure function_info where
  num_args : Nat
  num_vars : Nat
  code : List Nat

/-- Modelled from the spec: `struct native_info` of lib/c0vm.h is not in src;
§3: `{ num_args: u16, function_table_index: u16 }`. -/
structure native_info where
  num_args : Nat
  function_table_index : Nat

/-- Modelled from the spec: `struct bc0_file` of lib/c0vm.h is not in src; §3.
`string_pool` is the address of the first byte of the pool. -/
structure bc0_file where
  int_pool : List Int
  string_pool : Nat
  function_pool : List function_info
  native_pool : List native_info

/-- The names of `enum instructions`, in the order of the `case` labels of
`execute`. -/
inductive instructions
  | POP | DUP | SWAP | RETURN
  | IADD | ISUB | IMUL | IDIV | IREM | IAND | IOR | IXOR | ISHR | ISHL
  | BIPUSH | ILDC | ALDC | ACONST_NULL
  | VLOAD | VSTORE
  | ATHROW | ASSERT
  | NOP | IF_CMPEQ | IF_CMPNE | IF_ICMPLT | IF_ICMPGE | IF_ICMPGT | IF_ICMPLE | GOTO
  | INVOKESTATIC | INVOKENATIVE
  | NEW | IMLOAD | IMSTORE | AMLOAD | AMSTORE | CMLOAD | CMSTORE | AADDF
  | NEWARRAY | ARRAYLENGTH | AADDS
  | CHECKTAG | HASTAG | ADDTAG | ADDROF_STATIC | ADDROF_NATIVE | INVOKEDYNAMIC
deriving DecidableEq

/-- A saved frame of the call stack (`struct frame_info`). A local of a callee
(its locals come from `xmalloc`) that was never written is `none`. -/
structure frame where
  S : List c0_value
  P : List Nat
  pc : Nat
  V : List (Option c0_value)

/-- What `execute` is compiled and run against, all of it declared outside
src: the program image, the numbering of `enum instructions` (`opcode b` is
the instruction whose `case` label has value `b`), whether the build defines
`DEBUG` (then `ASSERT` of lib/contracts.h is `assert`, else it is empty), the
native function table, and the address `addr_a` of the automatic variable
`a` that the `NEWARRAY` case declares in the activation record of `execute`. -/
structure Env where
  bc0 : bc0_file
  opcode : Nat → Option instructions
  DEBUG : Bool
  native_function_table : Nat → List (Option c0_value) → Heap → Except Stop (c0_value × Heap)
  addr_a : Nat

/-- The variables of `execute`: operand stack `S`, code `P`, program counter
`pc`, locals `V`, the call stack (head is the top), and the memory. -/
structure State where
  S : List c0_value
  P : List Nat
  pc : Nat
  V : List (Option c0_value)
  callStack : List frame
  heap : Heap

/-- The read `P[i]` of a `ubyte`. -/
def fetch (P : List Nat) (i : Nat) : Except Stop Nat :=
  match P[i]? with
  | some b => pure (b % 256)
  | none => throw .undefined_behaviour

/-- The read `pool[i]` of a pool of the image. -/
def pool_get {α : Type} (pool : List α) (i : Nat) : Except Stop α :=
  match pool[i]? with
  | some x => pure x
  | none => throw .undefined_behaviour

/-- The loop `for (int16_t i = ...; i >= 0; i--) V[i] = c0v_pop(S)` with
`cnt = i + 1` iterations left: an empty stack ends the process with
`exit(EXIT_FAILURE)`, a slot outside the buffer is an out-of-bounds write. -/
def copy_args : Nat → List c0_value → List (Option c0_value) →
    Except Stop (List c0_value × List (Option c0_value))
  | 0, S, V => pure (S, V)
  | i + 1, S, V =>
    match S with
    | [] => throw .exit_failure
    | v :: S1 =>
      if i < V.length then copy_args i S1 (V.set i (some v))
      else throw .undefined_behaviour

/-- The number of iterations of the argument loop: `int16_t i = num - 1`
starts negative, and the loop body never runs, when `num` is `0` or when
`num - 1` does not fit `int16_t`. -/
def arg_loop_count (num : Nat) : Nat := (sext16 (toU16 num + 65535) + 1).toNat

/-- The taken-branch update `pc = pc+(o1<<8|o2)` of the six conditional
branches; `o1` and `o2` are `int32_t` copies of the two code bytes. -/
def branch_taken (s : State) : Except Stop State := do
  let o1 ← fetch s.P (s.pc + 1)
  let o2 ← fetch s.P (s.pc + 2)
  pure { s with pc := size_t_add s.pc (((o1 <<< 8 ||| o2 : Nat) : Int)) }

/-- The index `(o1 << 8) | o2` read as `uint16_t` from the two bytes after the
opcode. -/
def fetch_index (s : State) : Except Stop Nat := do
  let o1 ← fetch s.P (s.pc + 1)
  let o2 ← fetch s.P (s.pc + 2)
  pure (toU16 (o1 <<< 8 ||| o2))

/-! ## One iteration of the `while (true)` loop of `execute` -/

/-- The `case` selected by the `switch`: the next state, or the reason the
run stops. `none` is the `default` label. In the comparisons
`pop_int(S) OP pop_int(S)` the left operand is evaluated first. -/
def exec (env : Env) (s : State) : Option instructions → Except Stop State
  | some .POP => do
    let (_, S1) ← c0v_pop s.S
    pure { s with S := S1, pc := s.pc + 1 }
  | some .DUP => do
    let (v, S1) ← c0v_pop s.S
    pure { s with S := c0v_push (c0v_push S1 v) v, pc := s.pc + 1 }
  | some .SWAP => do
    let (v1, S1) ← c0v_pop s.S
    let (v2, S2) ← c0v_pop S1
    pure { s with S := c0v_push (c0v_push S2 v1) v2, pc := s.pc + 1 }
  | some .RETURN => do
    let (retval, S1) ← c0v_pop s.S
    match s.callStack with
    | a :: rest =>
      -- ASSERT(c0v_stack_empty(S))
      if env.DEBUG && !S1.isEmpty then throw .assertion_violation
      pure { S := c0v_push a.S retval, P := a.P, V := a.V, pc := a.pc,
             callStack := rest, heap := s.heap }
    | [] => do
      let r ← val2int retval
      throw (.returned r)
  | some .IADD => do
    let (a, S1) ← pop_int s.S
    let (b, S2) ← pop_int S1
    pure { s with S := push_int S2 (a + b), pc := s.pc + 1 }
  | some .ISUB => do
    let (a, S1) ← pop_int s.S
    let (b, S2) ← pop_int S1
    pure { s with S := push_int S2 (b - a), pc := s.pc + 1 }
  | some .IMUL => do
    let (a, S1) ← pop_int s.S
    let (b, S2) ← pop_int S1
    pure { s with S := push_int S2 (a * b), pc := s.pc + 1 }
  | some .IDIV => do
    let (a, S1) ← pop_int s.S
    let (b, S2) ← pop_int S1
    if a = 0 then throw .c0_arith_error
    if a = -1 ∧ b = -2147483648 then throw .c0_arith_error
    pure { s with S := push_int S2 (Int.tdiv b a), pc := s.pc + 1 }
  | some .IREM => do
    let (a, S1) ← pop_int s.S
    let (b, S2) ← pop_int S1
    if a = 0 then throw .c0_arith_error
    if a = -1 ∧ b = -2147483648 then throw .c0_arith_error
    pure { s with S := push_int S2 (Int.tmod b a), pc := s.pc + 1 }
  | some .IAND => do
    let (a, S1) ← pop_int s.S
    let (b, S2) ← pop_int S1
    pure { s with S := push_int S2 ((toU32 b &&& toU32 a : Nat) : Int), pc := s.pc + 1 }
  | some .IOR => do
    let (a, S1) ← pop_int s.S
    let (b, S2) ← pop_int S1
    pure { s with S := push_int S2 ((toU32 b ||| toU32 a : Nat) : Int), pc := s.pc + 1 }
  | some .IXOR => do
    let (a, S1) ← pop_int s.S
    let (b, S2) ← pop_int S1
    pure { s with S := push_int S2 ((toU32 b ^^^ toU32 a : Nat) : Int), pc := s.pc + 1 }
  | some .ISHR => do
    let (a, S1) ← pop_int s.S
    let (b, S2) ← pop_int S1
    if a < 0 ∨ 32 ≤ a then throw .c0_arith_error
    pure { s with S := push_int S2 (b >>> a.toNat), pc := s.pc + 1 }
  | some .ISHL => do
    let (a, S1) ← pop_int s.S
    let (b, S2) ← pop_int S1
    if a < 0 ∨ 32 ≤ a then throw .c0_arith_error
    pure { s with S := push_int S2 ((toU32 b <<< a.toNat : Nat) : Int), pc := s.pc + 1 }
  | some .BIPUSH => do
    let i := sext8 (← fetch s.P (s.pc + 1))
    pure { s with S := push_int s.S i, pc := s.pc + 2 }
  | some .ILDC => do
    let index ← fetch_index s
    let x ← pool_get env.bc0.int_pool index
    pure { s with S := push_int s.S x, pc := s.pc + 3 }
  | some .ALDC => do
    let index ← fetch_index s
    let x := env.bc0.string_pool + index
    pure { s with S := push_ptr s.S x, pc := s.pc + 3 }
  | some .ACONST_NULL =>
    pure { s with S := push_ptr s.S 0, pc := s.pc + 1 }
  | some .VLOAD => do
    let i ← fetch s.P (s.pc + 1)
    match s.V[i]? with
    | some (some v) => pure { s with S := c0v_push s.S v, pc := s.pc + 2 }
    | _ => throw .undefined_behaviour
  | some .VSTORE => do
    let i ← fetch s.P (s.pc + 1)
    let (v, S1) ← c0v_pop s.S
    if i < s.V.length then pure { s with S := S1, V := s.V.set i (some v), pc := s.pc + 2 }
    else throw .undefined_behaviour
  | some .ATHROW => do
    let (a, _) ← pop_ptr s.S
    throw (.c0_user_error a)
  | some .ASSERT => do
    let (a, S1) ← pop_ptr s.S
    let (x, S2) ← pop_int S1
    if x = 0 then throw (.c0_assertion_failure a)
    pure { s with S := S2, pc := s.pc + 1 }
  | some .NOP =>
    pure { s with pc := s.pc + 1 }
  | some .IF_CMPEQ => do
    let (x, S1) ← c0v_pop s.S
    let (y, S2) ← c0v_pop S1
    if val_equal x y then branch_taken { s with S := S2 }
    else pure { s with S := S2, pc := s.pc + 3 }
  | some .IF_CMPNE => do
    let (x, S1) ← c0v_pop s.S
    let (y, S2) ← c0v_pop S1
    if !val_equal x y then branch_taken { s with S := S2 }
    else pure { s with S := S2, pc := s.pc + 3 }
  | some .IF_ICMPLT => do
    let (x, S1) ← pop_int s.S
    let (y, S2) ← pop_int S1
    if x > y then branch_taken { s with S := S2 }
    else pure { s with S := S2, pc := s.pc + 3 }
  | some .IF_ICMPGE => do
    let (x, S1) ← pop_int s.S
    let (y, S2) ← pop_int S1
    if x ≤ y then branch_taken { s with S := S2 }
    else pure { s with S := S2, pc := s.pc + 3 }
  | some .IF_ICMPGT => do
    let (x, S1) ← pop_int s.S
    let (y, S2) ← pop_int S1
    if x < y then branch_taken { s with S := S2 }
    else pure { s with S := S2, pc := s.pc + 3 }
  | some .IF_ICMPLE => do
    let (x, S1) ← pop_int s.S
    let (y, S2) ← pop_int S1
    if x ≥ y then branch_taken { s with S := S2 }
    else pure { s with S := S2, pc := s.pc + 3 }
  | some .GOTO => do
    let o1 ← fetch s.P (s.pc + 1)
    let o2 ← fetch s.P (s.pc + 2)
    let target := size_t_add s.pc (sext16 (o1 <<< 8 ||| o2))
    pure { s with pc := target }
  | some .INVOKESTATIC => do
    let index ← fetch_index s
    let fn ← pool_get env.bc0.function_pool index
    let numArguments := toU16 fn.num_args
    let numVariables := toU16 fn.num_vars
    let pc := s.pc + 3
    -- `new_frame->S = S` shares the stack object with `S`, so the saved stack
    -- is the one left by the pops of the argument loop.
    let (S1, V) ← copy_args (arg_loop_count numArguments) s.S (List.replicate numVariables none)
    let new_frame : frame := { S := S1, V := s.V, pc := pc, P := s.P }
    pure { S := [], P := fn.code, pc := 0, V := V,
           callStack := new_frame :: s.callStack, heap := s.heap }
  | some .INVOKENATIVE => do
    let index ← fetch_index s
    let numArgs := toU16 (← pool_get env.bc0.native_pool index).num_args
    let (S1, val) ← copy_args (arg_loop_count numArgs) s.S (List.replicate numArgs none)
    let fIndex := toU16 (← pool_get env.bc0.native_pool index).function_table_index
    let (r, h1) ← env.native_function_table fIndex val s.heap
    pure { s with S := c0v_push S1 r, pc := s.pc + 3, heap := h1 }
  | some .NEW => do
    let sz ← fetch s.P (s.pc + 1)
    let (allocated_memory, h1) := xcalloc s.heap sz 1
    pure { s with S := push_ptr s.S allocated_memory, pc := s.pc + 2, heap := h1 }
  | some .IMLOAD => do
    let (a, S1) ← pop_ptr s.S
    if a = 0 then throw .c0_memory_error
    let value := load_int32 s.heap a
    pure { s with S := push_int S1 value, pc := s.pc + 1 }
  | some .IMSTORE => do
    let (x, S1) ← pop_int s.S
    let (a, S2) ← pop_ptr S1
    if a = 0 then throw .c0_memory_error
    pure { s with S := S2, pc := s.pc + 1, heap := store_int32 s.heap a x }
  | some .AMLOAD => do
    let (a, S1) ← pop_ptr s.S
    if a = 0 then throw .c0_memory_error
    pure { s with S := push_ptr S1 (load_ptr s.heap a), pc := s.pc + 1 }
  | some .AMSTORE => do
    let (a, S1) ← pop_ptr s.S
    if a = 0 then throw .c0_memory_error
    let (b, S2) ← pop_ptr S1
    if b = 0 then throw .c0_memory_error
    pure { s with S := S2, pc := s.pc + 1, heap := store_ptr s.heap a b }
  | some .CMLOAD => do
    let (a, S1) ← pop_ptr s.S
    if a = 0 then throw .c0_memory_error
    pure { s with S := push_int S1 (load_char s.heap a), pc := s.pc + 1 }
  | some .CMSTORE => do
    let (c, S1) ← pop_int s.S
    let (a, S2) ← pop_ptr S1
    if a = 0 then throw .c0_memory_error
    pure { s with S := S2, pc := s.pc + 1, heap := store_char s.heap a (toU32 c &&& 0x7F) }
  | some .AADDF => do
    let i ← fetch s.P (s.pc + 1)
    let (a, S1) ← pop_ptr s.S
    if a = 0 then throw .c0_memory_error
    pure { s with S := push_ptr S1 (ptr_add a i), pc := s.pc + 2 }
  | some .NEWARRAY => do
    let size := sext8 (← fetch s.P (s.pc + 1))
    let (n, S1) ← pop_int s.S
    if n < 0 then throw .c0_memory_error
    -- `c0_array a;` lives at `env.addr_a`
    let h1 := store_int32 s.heap env.addr_a n
    let h2 := store_int32 h1 (env.addr_a + 4) size
    let (elems, h3) := xcalloc h2 n.toNat sizeof_ptr
    let h4 := store_ptr h3 (env.addr_a + 8) elems
    pure { s with S := push_ptr S1 env.addr_a, pc := s.pc + 2, heap := h4 }
  | some .ARRAYLENGTH => do
    let (a, S1) ← pop_ptr s.S
    if a = 0 then throw .c0_memory_error
    pure { s with S := push_int S1 (load_array s.heap a).count, pc := s.pc + 1 }
  | some .AADDS => do
    let (b, S1) ← pop_int s.S
    let (a, S2) ← pop_ptr S1
    if a = 0 then throw .c0_memory_error
    let arr := load_array s.heap a
    if b < 0 ∨ toU32 arr.count < toU32 b then throw .c0_memory_error
    let result := ptr_add arr.elems (wrap32 (arr.elt_size * b))
    pure { s with S := push_ptr S2 result, pc := s.pc + 1 }
  | some .CHECKTAG => throw .invalid_opcode
  | some .HASTAG => throw .invalid_opcode
  | some .ADDTAG => throw .invalid_opcode
  | some .ADDROF_STATIC => throw .invalid_opcode
  | some .ADDROF_NATIVE => throw .invalid_opcode
  | some .INVOKEDYNAMIC => throw .invalid_opcode
  | none => throw .invalid_opcode

/-- The statement `switch (P[pc]) { ... }`. -/
def step (env : Env) (s : State) : Except Stop State := do
  let op ← fetch s.P s.pc
  exec env s (env.opcode op)

/-- The instruction the machine is about to execute, if `P[pc]` is the byte of
one. -/
def current (env : Env) (s : State) : Option instructions :=
  match s.P[s.pc]? with
  | some b => env.opcode (b % 256)
  | none => none

/-! ## The loop -/

/-- At most `fuel` iterations of the loop from state `s`. -/
def run (env : Env) : Nat → State → Except Stop State
  | 0, s => pure s
  | fuel + 1, s => do
    let s1 ← step env s
    run env fuel s1

/-- The state `execute` sets up before the loop: function 0 of the image, an
empty operand stack and call stack. The locals come from `xcalloc`, so every
slot is the all-zero `c0_value`, which is the integer 0. -/
def init (env : Env) (h : Heap) : Except Stop State := do
  let f ← pool_get env.bc0.function_pool 0
  pure { S := [], P := f.code, pc := 0,
         V := List.replicate (toU16 f.num_vars) (some (.int 0)),
         callStack := [], heap := h }

/-- The function `execute`, cut off after `fuel` instructions: `.error
(.returned v)` is the return of `v`, `.ok s` means the loop is still running
in state `s`. -/
def execute (env : Env) (h : Heap) (fuel : Nat) : Except Stop State := do
  let s ← init env h
  run env fuel s

/-! ## An instance for examples -/

/-- A numbering of `enum instructions` (that of the C0VM reference), used to
instantiate the theorems; the theorems themselves hold for every numbering. -/
def opcode_table (b : Nat) : Option instructions :=
  List.lookup b
    [(0x57, .POP), (0x59, .DUP), (0x5F, .SWAP), (0xB0, .RETURN),
     (0x60, .IADD), (0x64, .ISUB), (0x68, .IMUL), (0x6C, .IDIV), (0x70, .IREM),
     (0x7E, .IAND), (0x80, .IOR), (0x82, .IXOR), (0x7A, .ISHR), (0x78, .ISHL),
     (0x10, .BIPUSH), (0x13, .ILDC), (0x14, .ALDC), (0x01, .ACONST_NULL),
     (0x15, .VLOAD), (0x36, .VSTORE), (0xBF, .ATHROW), (0xCF, .ASSERT),
     (0x00, .NOP), (0x9F, .IF_CMPEQ), (0xA0, .IF_CMPNE), (0xA1, .IF_ICMPLT),
     (0xA2, .IF_ICMPGE), (0xA3, .IF_ICMPGT), (0xA4, .IF_ICMPLE), (0xA7, .GOTO),
     (0xB8, .INVOKESTATIC), (0xB7, .INVOKENATIVE),
     (0xBB, .NEW), (0x2E, .IMLOAD), (0x4E, .IMSTORE), (0x2F, .AMLOAD), (0x4F, .AMSTORE),
     (0x34, .CMLOAD), (0x55, .CMSTORE), (0x62, .AADDF),
     (0xBC, .NEWARRAY), (0xBE, .ARRAYLENGTH), (0x63, .AADDS),
     (0xC0, .CHECKTAG), (0xC1, .HASTAG), (0xC2, .ADDTAG),
     (0x16, .ADDROF_STATIC), (0x17, .ADDROF_NATIVE), (0xB6, .INVOKEDYNAMIC)]

/-- A memory with nothing in it; blocks start at address `0x1000`. -/
def empty_heap : Heap := { mem := fun _ => 0, brk := 0xFFF, blocks := [] }

/-- An environment around the image `bc0`: the numbering above, no natives,
the variable `a` of `NEWARRAY` at address `0x100`. -/
def example_env (bc0 : bc0_file) (debug : Bool) : Env :=
  { bc0 := bc0, opcode := opcode_table, DEBUG := debug,
    native_function_table := fun _ _ _ => throw .undefined_behaviour,
    addr_a := 0x100 }

/-- An image that has only functions. -/
def image_of (fs : List function_info) : bc0_file :=
  { int_pool := [], string_pool := 0, function_pool := fs, native_pool := [] }

/-- A state of a single frame executing `P` at `pc` with operand stack `S`. -/
def state_at (P : List Nat) (pc : Nat) (S : List c0_value) : State :=
  { S := S, P := P, pc := pc, V := [], callStack := [], heap := empty_heap }

/-- The operand stack and program counter of an outcome, which can be compared
by evaluation. -/
def observe (r : Except Stop State) : Except Stop (List c0_value × Nat) :=
  r.map fun s => (s.S, s.pc)

/-- Whether the `len` bytes at address `p` lie inside one block obtained from
`xcalloc`. -/
def in_block (h : Heap) (p len : Nat) : Bool :=
  h.blocks.any fun blk => decide (blk.1 ≤ p) && decide (p + len ≤ blk.1 + blk.2)

/-- Thirteen bytes of code whose byte 10 is the opcode `b`, followed by the
immediates `0xFF 0xFD`, the big-endian 16-bit encoding of `-3`. -/
def c1_code (b : Nat) : List Nat := [0, 0, 0, 0, 0, 0, 0, 0, 0, 0, b, 0xFF, 0xFD]

/-- A memory holding at `0x200` the header of an array of 3 elements of 4 bytes
whose elements start at `0x1000`. -/
def c2_heap : Heap :=
  { store_array empty_heap 0x200 { count := 3, elt_size := 4, elems := 0x1000 } with
    brk := 0x100B, blocks := [(0x1000, 12)] }

/-- The state before `AADDS` with index `3` on top of the array at `0x200`. -/
def c2_state : State := { state_at [0x63] 0 [.int 3, .ptr 0x200] with heap := c2_heap }

/-- The program `BIPUSH 3; NEWARRAY 4; BIPUSH 5; NEWARRAY 4; POP; ARRAYLENGTH;
RETURN`: it asks for the length of the first of two arrays. -/
def c4_code : List Nat := [0x10, 3, 0xBC, 4, 0x10, 5, 0xBC, 4, 0x57, 0xBE, 0xB0]

/-- The image of the call example: function 0 is `BIPUSH 3; BIPUSH 4;
INVOKESTATIC 0 1; RETURN`, function 1 (two arguments, two locals) is
`VLOAD 0; VLOAD 1; IADD; RETURN`. -/
def call_image : bc0_file :=
  image_of [⟨0, 0, [0x10, 3, 0x10, 4, 0xB8, 0, 1, 0xB0]⟩, ⟨2, 2, [0x15, 0, 0x15, 1, 0x60, 0xB0]⟩]

/-- The state of the call example before its `INVOKESTATIC`. -/
def call_state : State := state_at [0x10, 3, 0x10, 4, 0xB8, 0, 1, 0xB0] 4 [.int 4, .int 3]

/-- The state of the call example before the `RETURN` of function 1. -/
def return_state : State :=
  { S := [.int 7], P := [0x15, 0, 0x15, 1, 0x60, 0xB0], pc := 5,
    V := [some (.int 3), some (.int 4)],
    callStack := [{ S := [], P := [0x10, 3, 0x10, 4, 0xB8, 0, 1, 0xB0], pc := 7, V := [] }],
    heap := empty_heap }

/-- An image whose function 1 (one argument) is `VLOAD 0; VLOAD 0; RETURN`: it
returns with a second value left on its operand stack. Function 0 is
`BIPUSH 3; INVOKESTATIC 0 1; RETURN`. -/
def leftover_image : bc0_file :=
  image_of [⟨0, 0, [0x10, 3, 0xB8, 0, 1, 0xB0]⟩, ⟨1, 1, [0x15, 0, 0x15, 0, 0xB0]⟩]

/-- The state in which function 1 of `leftover_image` reaches its `RETURN`. -/
def leftover_state : State :=
  { S := [.int 3, .int 3], P := [0x15, 0, 0x15, 0, 0xB0], pc := 4, V := [some (.int 3)],
    callStack := [{ S := [], P := [0x10, 3, 0xB8, 0, 1, 0xB0], pc := 5, V := [] }],
    heap := empty_heap }

/-- The image of the branch example: `BIPUSH 1; BIPUSH 1; IF_CMPEQ 0x00 0x06;
BIPUSH 0; RETURN; BIPUSH 99; RETURN`. -/
def cmpeq_image : bc0_file :=
  image_of [⟨0, 0, [0x10, 1, 0x10, 1, 0x9F, 0x00, 0x06, 0x10, 0, 0xB0, 0x10, 99, 0xB0]⟩]

/-- The encoded length of an instruction in the words of the specification (§6,
binary encoding): 1 for the instructions without immediate, 2 for those with
a one-byte immediate, 3 for those with a two-byte immediate. It is given for
the instructions that can fall through to the next one; `GOTO`, `INVOKESTATIC`,
`RETURN`, `ATHROW` and the reserved opcodes have none. -/
def spec_encoded_length : instructions → Option Nat
  | .POP | .DUP | .SWAP => some 1
  | .IADD | .ISUB | .IMUL | .IDIV | .IREM | .IAND | .IOR | .IXOR | .ISHR | .ISHL => some 1
  | .IMLOAD | .IMSTORE | .AMLOAD | .AMSTORE | .CMLOAD | .CMSTORE => some 1
  | .ARRAYLENGTH | .AADDS | .ASSERT | .NOP | .ACONST_NULL => some 1
  | .BIPUSH | .VLOAD | .VSTORE | .NEW | .NEWARRAY | .AADDF => some 2
  | .ILDC | .ALDC | .INVOKENATIVE => some 3
  | .IF_CMPEQ | .IF_CMPNE | .IF_ICMPLT | .IF_ICMPGE | .IF_ICMPGT | .IF_ICMPLE => some 3
  | _ => none

/-- The six conditional branches. -/
def is_conditional_branch : instructions → Bool
  | .IF_CMPEQ | .IF_CMPNE | .IF_ICMPLT | .IF_ICMPGE | .IF_ICMPGT | .IF_ICMPLE => true
  | _ => false

/-- An image whose function 1 and whose native 0 take 40000 arguments. -/
def wide_image : bc0_file :=
  { int_pool := [], string_pool := 0,
    function_pool := [⟨0, 0, [0xB8, 0, 1, 0xB0]⟩, ⟨40000, 40000, [0xB0]⟩],
    native_pool := [⟨40000, 0⟩] }

/-- An environment around `wide_image` whose natives return the null
reference. -/
def wide_env : Env :=
  { bc0 := wide_image, opcode := opcode_table, DEBUG := false,
    native_function_table := fun _ _ h => pure (c0_value.ptr 0, h),
    addr_a := 0x100 }

/-- An operand stack of 40000 values. -/
def wide_stack : List c0_value := List.replicate 40000 (.int 7)

/-- An image whose function 1 takes 40000 arguments and is `BIPUSH 9; RETURN`;
function 0 is `INVOKESTATIC 0 1; RETURN`. -/
def wide_call_image : bc0_file :=
  image_of [⟨0, 0, [0xB8, 0, 1, 0xB0]⟩, ⟨40000, 40000, [0x10, 9, 0xB0]⟩]

/-- The state in which function 1 of `wide_call_image` is entered from a caller
that had pushed the 40000 values of `wide_stack`. -/
def wide_entered : State :=
  { S := [], P := [0x10, 9, 0xB0], pc := 0, V := List.replicate 40000 none,
    callStack := [{ S := wide_stack, P := [0xB8, 0, 1, 0xB0], pc := 3, V := [] }],
    heap := empty_heap }

/-- The state in which that callee reaches its `RETURN`. -/
def wide_returning : State := { wide_entered with S := [.int 9], pc := 2 }

/-- The image `VLOAD 0; RETURN` with one local. -/
def vload_image : bc0_file := image_of [⟨0, 1, [0x15, 0, 0xB0]⟩]

/-! ## Lemmas shared by the proofs -/

theorem step_of_current {env : Env} {s : State} {i : instructions}
    (h : current env s = some i) : step env s = exec env s (some i) := by
  unfold current at h
  unfold step fetch
  cases hb : s.P[s.pc]? with
  | none => simp [hb] at h
  | some b =>
    simp only [hb] at h
    show exec env s (env.opcode (b % 256)) = _
    rw [h]

theorem wrap32_eq_self {i : Int} (h : isInt32 i) : wrap32 i = i := by
  unfold isInt32 at h; unfold wrap32; omega

theorem isInt32_wrap32 (i : Int) : isInt32 (wrap32 i) := by
  unfold isInt32 wrap32; omega

theorem toU32_lt (i : Int) : toU32 i < 2 ^ 32 := by
  unfold toU32; omega

theorem toU32_wrap32_cast {n : Nat} (h : n < 2 ^ 32) : toU32 (wrap32 (n : Int)) = n := by
  unfold toU32 wrap32; omega

theorem tdiv_tmod_spec (l r : Int) (hr : r ≠ 0) :
    Int.tdiv l r * r + Int.tmod l r = l ∧ |Int.tmod l r| < |r| ∧
    (0 ≤ l → 0 ≤ Int.tmod l r) ∧ (l ≤ 0 → Int.tmod l r ≤ 0) ∧ |Int.tdiv l r| ≤ |l| := by
  have hdef := Int.tmod_def l r
  generalize Int.tmod l r = m at hdef ⊢
  subst hdef
  obtain ⟨L, rfl | rfl⟩ := Int.eq_nat_or_neg l <;> obtain ⟨R, rfl | rfl⟩ := Int.eq_nat_or_neg r
  all_goals
    have hR : 0 < R := by
      rcases Nat.eq_zero_or_pos R with h | h
      · subst h; simp at hr
      · exact h
    have hq : Int.tdiv (L : Int) (R : Int) = ((L / R : Nat) : Int) := rfl
    have h1 : R * (L / R) + L % R = L := Nat.div_add_mod L R
    have h2 : L % R < R := Nat.mod_lt _ hR
    have h1i : (R : Int) * ((L / R : Nat) : Int) + ((L % R : Nat) : Int) = L := by exact_mod_cast h1
    have hQL : L / R ≤ L := Nat.div_le_self L R
    generalize L / R = Q at *
    generalize L % R = M at *
    simp only [Int.tdiv_neg, Int.neg_tdiv, hq, neg_neg, abs_neg, Nat.abs_cast, neg_mul, mul_neg,
      abs_lt, abs_le]
    refine ⟨by ring, ?_⟩
    omega

theorem isInt32_tdiv {l r : Int} (hl : isInt32 l) (h0 : r ≠ 0)
    (h1 : ¬ (r = -1 ∧ l = -2147483648)) : isInt32 (Int.tdiv l r) := by
  obtain ⟨e, hm, hp, hn, hq⟩ := tdiv_tmod_spec l r h0
  unfold isInt32 at *
  rw [abs_lt] at hm
  rw [abs_le] at hq
  by_contra hc
  have hq2 : Int.tdiv l r = 2 ^ 31 := by
    rcases abs_cases l with ⟨h, _⟩ | ⟨h, _⟩ <;> rw [h] at hq <;> omega
  rw [hq2] at e
  rcases abs_cases l with ⟨h, _⟩ | ⟨h, _⟩ <;> rw [h] at hq <;>
    rcases abs_cases r with ⟨h', _⟩ | ⟨h', _⟩ <;> rw [h'] at hm <;> omega

theorem isInt32_tmod {l r : Int} (hr : isInt32 r) (h0 : r ≠ 0) : isInt32 (Int.tmod l r) := by
  obtain ⟨_, hm, _⟩ := tdiv_tmod_spec l r h0
  unfold isInt32 at *
  rw [abs_lt] at hm
  rcases abs_cases r with ⟨h', _⟩ | ⟨h', _⟩ <;> rw [h'] at hm <;> omega

theorem shl8_or (a b : Nat) (hb : b < 256) : a <<< 8 ||| b = a * 256 + b := by
  rw [Nat.shiftLeft_eq, Nat.mul_comm a (2 ^ 8)]
  exact (Nat.mul_add_lt_is_or (by simpa using hb) a).symm

/-- What the taken branch of a conditional does with the two bytes after the
opcode: it adds their unsigned big-endian value to `pc`. -/
theorem branch_taken_eq (s : State) (o1 o2 : Nat) (h1 : s.P[s.pc + 1]? = some o1)
    (h2 : s.P[s.pc + 2]? = some o2) (hpc : s.pc + 65535 < 2 ^ 64) :
    branch_taken s = .ok { s with pc := s.pc + ((o1 % 256) * 256 + o2 % 256) } := by
  have e : size_t_add s.pc ((((o1 % 256) <<< 8 ||| o2 % 256 : Nat) : Int))
      = s.pc + ((o1 % 256) * 256 + o2 % 256) := by
    rw [shl8_or _ _ (Nat.mod_lt _ (by norm_num))]
    unfold size_t_add
    omega
  simp only [branch_taken, fetch, h1, h2]
  show Except.ok _ = _
  rw [e]

/-! ## Control flow: conditional branches -/

/-- C1: a conditional branch that is taken should move to `pc + off` with `off`
the signed 16-bit value of the immediates, hence backwards when the high byte
is at least `0x80`. The code adds the unsigned value instead: each of the six
conditional branches, placed at address 10 with immediates `0xFF 0xFD`
(`off = -3`) and operands that make it taken, continues at `10 + 65533 =
65543`, not at `7`. -/
theorem C1_conditional_branch_ignores_sign :
    sext16 (0xFF <<< 8 ||| 0xFD) = -3 ∧
    observe (step (example_env (image_of []) false) (state_at (c1_code 0x9F) 10 [.int 1, .int 1]))
      = .ok ([], 65543) ∧
    observe (step (example_env (image_of []) false) (state_at (c1_code 0xA0) 10 [.int 1, .int 2]))
      = .ok ([], 65543) ∧
    observe (step (example_env (image_of []) false) (state_at (c1_code 0xA1) 10 [.int 2, .int 1]))
      = .ok ([], 65543) ∧
    observe (step (example_env (image_of []) false) (state_at (c1_code 0xA2) 10 [.int 1, .int 1]))
      = .ok ([], 65543) ∧
    observe (step (example_env (image_of []) false) (state_at (c1_code 0xA3) 10 [.int 1, .int 2]))
      = .ok ([], 65543) ∧
    observe (step (example_env (image_of []) false) (state_at (c1_code 0xA4) 10 [.int 1, .int 1]))
      = .ok ([], 65543) :=
  ⟨by decide, rfl, rfl, rfl, rfl, rfl, rfl⟩

/-! ## Arrays and memory -/

/-- The `AADDS` case on an index `b` and an array pointer `a`: the bounds
check lets the index through unless `count < b`. -/
theorem exec_AADDS (env : Env) (s : State) (b : Int) (a : Nat) (rest : List c0_value)
    (hS : s.S = .int b :: .ptr a :: rest) :
    exec env s (some .AADDS) =
      if a = 0 then .error .c0_memory_error
      else if b < 0 ∨ toU32 (load_array s.heap a).count < toU32 b then .error .c0_memory_error
      else .ok { s with
        S := .ptr (ptr_add (load_array s.heap a).elems
              (wrap32 ((load_array s.heap a).elt_size * b))) :: rest,
        pc := s.pc + 1 } := by
  by_cases ha : a = 0
  · simp [exec, hS, pop_int, pop_ptr, c0v_pop, val2int, val2ptr, ha]; rfl
  · by_cases hb : b < 0 ∨ toU32 (load_array s.heap a).count < toU32 b
    · simp [exec, hS, pop_int, pop_ptr, c0v_pop, val2int, val2ptr, ha, hb]; rfl
    · simp [exec, hS, pop_int, pop_ptr, c0v_pop, val2int, val2ptr, ha, hb, push_ptr, c0v_push,
        ptr2val]
      rfl

/-- C2: `AADDS` should trap with a memory error when the index equals `count`.
On the array of 3 elements of 4 bytes at `0x1000`, index `3` does not trap:
the step succeeds and pushes the address `0x1000 + 3 * 4`, one element past
the end. -/
theorem C2_aadds_accepts_index_equal_to_count :
    (load_array c2_heap 0x200).count = 3 ∧
    (load_array c2_heap 0x200).elt_size = 4 ∧
    (load_array c2_heap 0x200).elems = 0x1000 ∧
    observe (step (example_env (image_of []) false) c2_state) = .ok ([.ptr (0x1000 + 3 * 4)], 1) ∧
    in_block c2_heap (0x1000 + 3 * 4) 4 = false :=
  ⟨by decide, by decide, by decide, rfl, by decide⟩

/-- The `NEWARRAY` case for `n >= 0`: whatever the stride byte `imm`, the block
obtained for the elements has `n * sizeof_ptr` bytes, and the reference pushed
is the address of the variable `a`. -/
theorem exec_NEWARRAY_block (env : Env) (s : State) (imm : Nat) (n : Int) (rest : List c0_value)
    (himm : s.P[s.pc + 1]? = some imm) (hS : s.S = .int n :: rest) (hn : 0 ≤ n) :
    ∃ s1 : State, exec env s (some .NEWARRAY) = .ok s1 ∧
      s1.S = .ptr env.addr_a :: rest ∧ s1.pc = s.pc + 2 ∧
      s1.heap.blocks = (s.heap.brk + 1, n.toNat * sizeof_ptr) :: s.heap.blocks := by
  have hc : ¬ n < 0 := by omega
  have h : exec env s (some .NEWARRAY) = .ok
      { s with
        S := .ptr env.addr_a :: rest, pc := s.pc + 2,
        heap := store_ptr
          (xcalloc (store_int32 (store_int32 s.heap env.addr_a n) (env.addr_a + 4)
            (sext8 (imm % 256))) n.toNat sizeof_ptr).2
          (env.addr_a + 8)
          (xcalloc (store_int32 (store_int32 s.heap env.addr_a n) (env.addr_a + 4)
            (sext8 (imm % 256))) n.toNat sizeof_ptr).1 } := by
    simp only [exec, fetch, himm, hS, pop_int, c0v_pop, val2int, bind, Except.bind, pure,
      Except.pure, hc, if_false]
    rfl
  exact ⟨_, h, rfl, rfl, rfl⟩

/-- C3: `NEWARRAY` should give the array `count * stride` zeroed bytes, so that
every element lies inside the block. The code allocates `count` times the
size of a pointer: for `n = 1` and stride 16 the header says one element of 16
bytes at `0x1000`, the block there has 8 bytes, and the 16 bytes of element 0
do not lie inside it. -/
theorem C3_newarray_block_ignores_stride :
    (step (example_env (image_of []) false) (state_at [0xBC, 16] 0 [.int 1])).map
        (fun s => (s.S, (load_array s.heap 0x100).count, (load_array s.heap 0x100).elt_size,
          (load_array s.heap 0x100).elems, s.heap.blocks, in_block s.heap (0x1000 + 0 * 16) 16))
      = .ok ([.ptr 0x100], 1, 16, 0x1000, [(0x1000, 8)], false) :=
  rfl

/-- C4: `ARRAYLENGTH` on a reference returned by `NEWARRAY n` should push `n`
at any later point of the run. The header is the automatic variable `a` of
`execute`, whose address every `NEWARRAY` pushes and whose fields every
`NEWARRAY` overwrites: after an array of 3 and an array of 5 are created, the
length of the first one reads 5. -/
theorem C4_arraylength_of_older_array :
    execute (example_env (image_of [⟨0, 0, c4_code⟩]) false) empty_heap 7
      = .error (.returned 5) ∧
    observe (run (example_env (image_of [⟨0, 0, c4_code⟩]) false) 4
        { state_at c4_code 0 [] with V := [] })
      = .ok ([.ptr 0x100, .ptr 0x100], 8) :=
  ⟨rfl, rfl⟩

/-- The `AMSTORE` case traps on a null value to be stored, whatever the
address is. -/
theorem exec_AMSTORE_null_value (env : Env) (s : State) (a : Nat) (rest : List c0_value)
    (hS : s.S = .ptr a :: .ptr 0 :: rest) :
    exec env s (some .AMSTORE) = .error .c0_memory_error := by
  by_cases ha : a = 0
  · simp [exec, hS, pop_ptr, c0v_pop, val2ptr, ha]; rfl
  · simp [exec, hS, pop_ptr, c0v_pop, val2ptr, ha]; rfl

/-- C5: `AMSTORE` should trap only when the address is null, and store any
reference, the null reference included, through a valid address. With the
valid address `0x1000` on top of the stack and the null reference beneath it
the code raises a memory error. -/
theorem C5_amstore_null_value_traps :
    in_block c2_heap 0x1000 8 = true ∧
    step (example_env (image_of []) false)
        { state_at [0x4F] 0 [.ptr 0x1000, .ptr 0] with heap := c2_heap }
      = .error .c0_memory_error :=
  ⟨by decide, rfl⟩

/-! ## Arithmetic -/

/-- C6: for 32-bit `l` (next to top) and `r` (top), `IDIV` and `IREM` trap with
an arithmetic error exactly when `r = 0` or `l = INT_MIN` and `r = -1`;
otherwise `IDIV` pushes the quotient `q` truncated toward zero and `IREM`
pushes `m = l - q * r`, with `q * r + m = l`, `|m| < |r|` and `m` of the sign
of `l` or zero; the rest of the stack is kept and `pc` advances by 1. -/
theorem C6_idiv_irem (env : Env) (s : State) (op : instructions) (l r : Int) (rest : List c0_value)
    (hop : op = .IDIV ∨ op = .IREM) (hcur : current env s = some op)
    (hS : s.S = .int r :: .int l :: rest) (hl : isInt32 l) (hr : isInt32 r) :
    (step env s = .error .c0_arith_error ↔ (r = 0 ∨ (l = -2 ^ 31 ∧ r = -1))) ∧
    (¬ (r = 0 ∨ (l = -2 ^ 31 ∧ r = -1)) →
      ∃ q m : Int,
        step env s = .ok { s with S := .int (if op = .IDIV then q else m) :: rest, pc := s.pc + 1 } ∧
        q = Int.tdiv l r ∧ m = l - q * r ∧ q * r + m = l ∧ |m| < |r| ∧
        (0 ≤ l → 0 ≤ m) ∧ (l ≤ 0 → m ≤ 0) ∧ isInt32 q ∧ isInt32 m) := by
  rw [step_of_current hcur]
  have key : ¬ (r = 0 ∨ (l = -2 ^ 31 ∧ r = -1)) →
      exec env s (some op) = .ok { s with S := .int (if op = .IDIV then Int.tdiv l r else Int.tmod l r) :: rest, pc := s.pc + 1 } := by
    intro h
    have h0 : r ≠ 0 := fun e => h (Or.inl e)
    have h1 : ¬ (r = -1 ∧ l = -2147483648) := fun e => h (Or.inr ⟨by omega, e.1⟩)
    rcases hop with rfl | rfl
    · simp [exec, hS, pop_int, c0v_pop, val2int, push_int, c0v_push, int2val, h0, h1,
        wrap32_eq_self (isInt32_tdiv hl h0 h1)]
      rfl
    · simp [exec, hS, pop_int, c0v_pop, val2int, push_int, c0v_push, int2val, h0, h1,
        wrap32_eq_self (isInt32_tmod hr h0)]
      rfl
  constructor
  · constructor
    · intro h
      by_contra hc
      rw [key hc] at h
      cases h
    · intro h
      rcases hop with rfl | rfl <;> rcases h with h | ⟨h1, h2⟩
      all_goals first
        | (subst h; simp [exec, hS, pop_int, c0v_pop, val2int]; rfl)
        | (subst h1; subst h2; simp [exec, hS, pop_int, c0v_pop, val2int]; rfl)
  · intro h
    have h0 : r ≠ 0 := fun e => h (Or.inl e)
    have h1 : ¬ (r = -1 ∧ l = -2147483648) := fun e => h (Or.inr ⟨by omega, e.1⟩)
    obtain ⟨e, hm, hp, hn, hq⟩ := tdiv_tmod_spec l r h0
    exact ⟨Int.tdiv l r, Int.tmod l r, key h, rfl, by omega, e, hm, hp, hn,
      isInt32_tdiv hl h0 h1, isInt32_tmod hr h0⟩

/-- C7: for 32-bit `l` (next to top) and `r` (top), `ISHL` and `ISHR` trap with
an arithmetic error exactly when `r < 0` or `r >= 32`; for `0 <= r < 32`,
`ISHR` pushes the floor of `l / 2^r` (the sign-extending shift) and `ISHL`
pushes `l * 2^r` wrapped to 32 bits. -/
theorem C7_ishl_ishr (env : Env) (s : State) (op : instructions) (l r : Int) (rest : List c0_value)
    (hop : op = .ISHL ∨ op = .ISHR) (hcur : current env s = some op)
    (hS : s.S = .int r :: .int l :: rest) (hl : isInt32 l) :
    (step env s = .error .c0_arith_error ↔ (r < 0 ∨ r ≥ 32)) ∧
    (0 ≤ r → r < 32 →
      step env s = .ok { s with
        S := .int (if op = .ISHR then l / 2 ^ r.toNat else wrap32 (l * 2 ^ r.toNat)) :: rest,
        pc := s.pc + 1 }) := by
  rw [step_of_current hcur]
  have key : 0 ≤ r → r < 32 →
      exec env s (some op) = .ok { s with
        S := .int (if op = .ISHR then l / 2 ^ r.toNat else wrap32 (l * 2 ^ r.toNat)) :: rest,
        pc := s.pc + 1 } := by
    intro h0 h32
    have hc : ¬ (r < 0 ∨ 32 ≤ r) := by omega
    have hk : r.toNat < 32 := by omega
    rcases hop with rfl | rfl
    · have e : wrap32 ((toU32 l <<< r.toNat : Nat) : Int) = wrap32 (l * 2 ^ r.toNat) := by
        rw [Nat.shiftLeft_eq]
        unfold wrap32 toU32
        generalize r.toNat = k at hk
        interval_cases k <;> omega
      simp [exec, hS, pop_int, c0v_pop, val2int, push_int, c0v_push, int2val, hc, e]
      rfl
    · have e : wrap32 (l >>> r.toNat) = l / 2 ^ r.toNat := by
        rw [Int.shiftRight_eq_div_pow]
        unfold isInt32 at hl
        unfold wrap32
        generalize r.toNat = k at hk
        interval_cases k <;> simp <;> omega
      simp [exec, hS, pop_int, c0v_pop, val2int, push_int, c0v_push, int2val, hc, e]
      rfl
  refine ⟨⟨?_, ?_⟩, key⟩
  · intro h
    by_contra hc
    rw [key (by omega) (by omega)] at h
    cases h
  · intro h
    have hc : r < 0 ∨ 32 ≤ r := by omega
    rcases hop with rfl | rfl <;>
      simp [exec, hS, pop_int, c0v_pop, val2int, hc] <;> rfl

theorem C6_idiv_irem_witness :
    current (example_env (image_of []) false) (state_at [0x6C] 0 [.int 2, .int (-7)])
      = some .IDIV ∧
    isInt32 (-7) ∧ isInt32 2 ∧
    (step (example_env (image_of []) false) (state_at [0x6C] 0 [.int 2, .int (-7)])
        = .error .c0_arith_error ↔ ((2 : Int) = 0 ∨ ((-7 : Int) = -2 ^ 31 ∧ (2 : Int) = -1))) :=
  ⟨rfl, by decide, by decide,
    (C6_idiv_irem (example_env (image_of []) false) (state_at [0x6C] 0 [.int 2, .int (-7)])
      .IDIV (-7) 2 [] (Or.inl rfl) rfl rfl (by decide) (by decide)).1⟩

theorem C7_ishl_ishr_witness :
    current (example_env (image_of []) false) (state_at [0x7A] 0 [.int 1, .int (-7)])
      = some .ISHR ∧
    isInt32 (-7) ∧
    (step (example_env (image_of []) false) (state_at [0x7A] 0 [.int 1, .int (-7)])
        = .error .c0_arith_error ↔ ((1 : Int) < 0 ∨ (1 : Int) ≥ 32)) :=
  ⟨rfl, by decide,
    (C7_ishl_ishr (example_env (image_of []) false) (state_at [0x7A] 0 [.int 1, .int (-7)])
      .ISHR (-7) 1 [] (Or.inr rfl) rfl rfl (by decide)).1⟩

/-- C8: with `a` pushed first and `b` second, `IADD` replaces them by
`wrap32 (a + b)`, `ISUB` by `wrap32 (a - b)`, `IMUL` by `wrap32 (a * b)`, and
`IAND`, `IOR`, `IXOR` by the integer whose 32 bits are the and, or, xor of the
bits of `a` and `b`; the step never traps, the stack below the operands is
kept (so the stack is one shorter) and `pc` advances by 1. -/
theorem C8_binary_operations (env : Env) (s : State) (op : instructions) (a b : Int)
    (rest : List c0_value)
    (hop : op = .IADD ∨ op = .ISUB ∨ op = .IMUL ∨ op = .IAND ∨ op = .IOR ∨ op = .IXOR)
    (hcur : current env s = some op) (hS : s.S = .int b :: .int a :: rest) :
    ∃ v : Int,
      step env s = .ok { s with S := .int v :: rest, pc := s.pc + 1 } ∧
      isInt32 v ∧
      (op = .IADD → v = wrap32 (a + b)) ∧
      (op = .ISUB → v = wrap32 (a - b)) ∧
      (op = .IMUL → v = wrap32 (a * b)) ∧
      (op = .IAND → ∀ i, i < 32 →
        (toU32 v).testBit i = ((toU32 a).testBit i && (toU32 b).testBit i)) ∧
      (op = .IOR → ∀ i, i < 32 →
        (toU32 v).testBit i = ((toU32 a).testBit i || (toU32 b).testBit i)) ∧
      (op = .IXOR → ∀ i, i < 32 →
        (toU32 v).testBit i = ((toU32 a).testBit i ^^ (toU32 b).testBit i)) := by
  rw [step_of_current hcur]
  rcases hop with rfl | rfl | rfl | rfl | rfl | rfl
  · refine ⟨wrap32 (b + a), ?_, isInt32_wrap32 _, ?_⟩
    · simp [exec, hS, pop_int, c0v_pop, val2int, push_int, c0v_push, int2val]; rfl
    · simp [Int.add_comm]
  · refine ⟨wrap32 (a - b), ?_, isInt32_wrap32 _, ?_⟩
    · simp [exec, hS, pop_int, c0v_pop, val2int, push_int, c0v_push, int2val]; rfl
    · simp
  · refine ⟨wrap32 (b * a), ?_, isInt32_wrap32 _, ?_⟩
    · simp [exec, hS, pop_int, c0v_pop, val2int, push_int, c0v_push, int2val]; rfl
    · simp [Int.mul_comm]
  · refine ⟨wrap32 ((toU32 a &&& toU32 b : Nat) : Int), ?_, isInt32_wrap32 _, ?_⟩
    · simp [exec, hS, pop_int, c0v_pop, val2int, push_int, c0v_push, int2val]; rfl
    · rw [toU32_wrap32_cast (Nat.and_lt_two_pow _ (toU32_lt b))]
      simp
  · refine ⟨wrap32 ((toU32 a ||| toU32 b : Nat) : Int), ?_, isInt32_wrap32 _, ?_⟩
    · simp [exec, hS, pop_int, c0v_pop, val2int, push_int, c0v_push, int2val]; rfl
    · rw [toU32_wrap32_cast (Nat.or_lt_two_pow (toU32_lt a) (toU32_lt b))]
      simp
  · refine ⟨wrap32 ((toU32 a ^^^ toU32 b : Nat) : Int), ?_, isInt32_wrap32 _, ?_⟩
    · simp [exec, hS, pop_int, c0v_pop, val2int, push_int, c0v_push, int2val]; rfl
    · rw [toU32_wrap32_cast (Nat.xor_lt_two_pow (toU32_lt a) (toU32_lt b))]
      simp

theorem C8_binary_operations_witness :
    current (example_env (image_of []) false) (state_at [0x68] 0 [.int 7, .int 6])
      = some .IMUL ∧
    ∃ v : Int,
      step (example_env (image_of []) false) (state_at [0x68] 0 [.int 7, .int 6])
        = .ok { state_at [0x68] 0 [.int 7, .int 6] with S := [.int v], pc := 0 + 1 } ∧
      v = wrap32 (6 * 7) := by
  obtain ⟨v, h, _, _, _, hmul, _⟩ :=
    C8_binary_operations (example_env (image_of []) false) (state_at [0x68] 0 [.int 7, .int 6])
      .IMUL 6 7 [] (Or.inr (Or.inr (Or.inl rfl))) rfl rfl
  exact ⟨rfl, v, h, hmul rfl⟩

/-! ## Function calls -/

theorem arg_loop_count_eq {k : Nat} (hk : k ≤ 32768) : arg_loop_count k = k := by
  unfold arg_loop_count sext16 toU16
  split <;> omega

theorem drop_set_self {α : Type} (V : List α) (n : Nat) (a : α) (h : n < V.length) :
    (V.set n a).drop n = a :: V.drop (n + 1) := by
  rw [List.set_eq_take_append_cons_drop, if_pos h]
  exact List.drop_left' (by simp; omega)

theorem copy_args_rev (ys : List c0_value) :
    ∀ (rest : List c0_value) (V : List (Option c0_value)), ys.length ≤ V.length →
      copy_args ys.length (ys ++ rest) V
        = .ok (rest, (ys.reverse.map some) ++ V.drop ys.length) := by
  induction ys with
  | nil => intro rest V _; simp [copy_args]; rfl
  | cons y ys ih =>
    intro rest V hV
    have hlt : ys.length < V.length := by simpa using hV
    have h1 : ys.length ≤ (V.set ys.length (some y)).length := by
      rw [List.length_set]; omega
    simp only [List.length_cons, List.cons_append, copy_args, hlt, if_true]
    rw [ih rest _ h1, drop_set_self V _ _ hlt]
    simp

/-- The argument loop of `INVOKESTATIC` and `INVOKENATIVE` on a stack that holds
the arguments `xs` (last argument on top) above `rest`. -/
theorem copy_args_spec (xs rest : List c0_value) (V : List (Option c0_value))
    (h : xs.length ≤ V.length) :
    copy_args xs.length (xs.reverse ++ rest) V = .ok (rest, xs.map some ++ V.drop xs.length) := by
  have := copy_args_rev xs.reverse rest V (by simpa using h)
  simpa using this

/-- The `INVOKESTATIC` case. -/
theorem exec_INVOKESTATIC (env : Env) (s : State) (idx : Nat) (fn : function_info)
    (xs rest : List c0_value)
    (hidx : fetch_index s = .ok idx) (hfn : env.bc0.function_pool[idx]? = some fn)
    (hk : fn.num_args = xs.length) (hkv : fn.num_args ≤ fn.num_vars)
    (hv : fn.num_vars < 65536) (hk15 : fn.num_args ≤ 32768)
    (hS : s.S = xs.reverse ++ rest) :
    exec env s (some .INVOKESTATIC) = .ok
      { S := [], P := fn.code, pc := 0,
        V := xs.map some ++ List.replicate (fn.num_vars - xs.length) none,
        callStack := { S := rest, P := s.P, pc := s.pc + 3, V := s.V } :: s.callStack,
        heap := s.heap } := by
  have ha : toU16 fn.num_args = xs.length := by unfold toU16; omega
  have hvv : toU16 fn.num_vars = fn.num_vars := by unfold toU16; omega
  have hc := copy_args_spec xs rest (List.replicate fn.num_vars none) (by simp; omega)
  simp only [exec, hidx, pool_get, hfn, bind, Except.bind, pure, Except.pure, ha, hvv,
    arg_loop_count_eq (k := xs.length) (by omega), hS, hc]
  simp

/-- The `RETURN` case with a frame on the call stack. -/
theorem exec_RETURN (env : Env) (s : State) (f : frame) (cs : List frame) (v : c0_value)
    (rest : List c0_value) (hS : s.S = v :: rest) (hcs : s.callStack = f :: cs)
    (hdbg : env.DEBUG = false ∨ rest = []) :
    exec env s (some .RETURN) = .ok
      { S := v :: f.S, P := f.P, pc := f.pc, V := f.V, callStack := cs, heap := s.heap } := by
  have hc : (env.DEBUG && !rest.isEmpty) = false := by
    rcases hdbg with h | h
    · simp [h]
    · simp [h]
  simp only [exec, hS, c0v_pop, hcs, bind, Except.bind, pure, Except.pure, hc]
  rfl

/-- C9: `INVOKESTATIC` of a function `fn` with `k = num_args <= num_vars`
(`k < 32768`, `num_vars` a 16-bit count) on an operand stack holding the
arguments `x_0 .. x_{k-1}` (`x_{k-1}` on top) above `rest`: the call stack
gets the one new frame `{ S = rest, P = P, pc = pc + 3, V = V }` of the caller,
the new locals have `num_vars` slots with `V[i] = x_i` for `i < k`, the
operand stack is empty, the code is `fn.code` and `pc` is 0. -/
theorem C9_invokestatic_enters_callee (env : Env) (s : State) (idx : Nat) (fn : function_info)
    (xs rest : List c0_value)
    (hcur : current env s = some .INVOKESTATIC)
    (hidx : fetch_index s = .ok idx) (hfn : env.bc0.function_pool[idx]? = some fn)
    (hk : fn.num_args = xs.length) (hkv : fn.num_args ≤ fn.num_vars)
    (hv : fn.num_vars < 65536) (hk15 : fn.num_args < 32768)
    (hS : s.S = xs.reverse ++ rest) :
    ∃ V : List (Option c0_value),
      step env s = .ok
        { S := [], P := fn.code, pc := 0, V := V,
          callStack := { S := rest, P := s.P, pc := s.pc + 3, V := s.V } :: s.callStack,
          heap := s.heap } ∧
      V.length = fn.num_vars ∧
      ∀ i (hi : i < xs.length), V[i]? = some (some xs[i]) := by
  refine ⟨xs.map some ++ List.replicate (fn.num_vars - xs.length) none, ?_, ?_, ?_⟩
  · rw [step_of_current hcur]
    exact exec_INVOKESTATIC env s idx fn xs rest hidx hfn hk hkv hv (by omega) hS
  · simp; omega
  · intro i hi
    rw [List.getElem?_append_left (by simpa using hi)]
    simp [hi]

theorem C9_invokestatic_enters_callee_witness :
    current (example_env call_image false) call_state = some .INVOKESTATIC ∧
    fetch_index call_state = .ok 1 ∧
    ∃ V : List (Option c0_value),
      step (example_env call_image false) call_state = .ok
        { S := [], P := [0x15, 0, 0x15, 1, 0x60, 0xB0], pc := 0, V := V,
          callStack := [{ S := [], P := call_state.P, pc := 4 + 3, V := [] }],
          heap := call_state.heap } ∧
      V.length = 2 ∧ V[0]? = some (some (.int 3)) ∧ V[1]? = some (some (.int 4)) := by
  obtain ⟨V, h, hl, hV⟩ :=
    C9_invokestatic_enters_callee (example_env call_image false) call_state 1
      ⟨2, 2, [0x15, 0, 0x15, 1, 0x60, 0xB0]⟩ [.int 3, .int 4] [] rfl rfl rfl rfl
      (by decide) (by decide) (by decide) rfl
  exact ⟨rfl, rfl, V, h, hl, hV 0 (by decide), hV 1 (by decide)⟩

/-! ## Entry and exit -/

theorem sext8_isInt32 (b : Nat) : isInt32 (sext8 b) := by
  unfold isInt32 sext8; split <;> omega

theorem sext8_mod (b : Nat) : sext8 (b % 256) = sext8 b := by
  unfold sext8; simp [Nat.mod_mod]

theorem run_succ (env : Env) (n : Nat) (s : State) :
    run env (n + 1) s = (step env s >>= fun s1 => run env n s1) := rfl

/-- C11: for every byte `b`, `execute` on an image whose function 0 is the
three bytes `BIPUSH b; RETURN` halts after two instructions (whatever fuel is
left) and returns the sign extension of `b` from 8 to 32 bits: 42 for `0x2A`,
-1 for `0xFF`, -128 for `0x80`. -/
theorem C11_bipush_return (env : Env) (h : Heap) (f : function_info) (bp b rt : Nat) (fuel : Nat)
    (hf : env.bc0.function_pool[0]? = some f) (hcode : f.code = [bp, b, rt])
    (hbp : env.opcode (bp % 256) = some .BIPUSH) (hrt : env.opcode (rt % 256) = some .RETURN) :
    execute env h (fuel + 2) = .error (.returned (sext8 b)) ∧
    sext8 0x2A = 42 ∧ sext8 0xFF = -1 ∧ sext8 0x80 = -128 := by
  refine ⟨?_, by decide, by decide, by decide⟩
  have h1 : ∀ V : List (Option c0_value),
      step env { S := [], P := [bp, b, rt], pc := 0, V := V, callStack := [], heap := h }
        = .ok { S := [.int (sext8 b)], P := [bp, b, rt], pc := 2, V := V, callStack := [],
                heap := h } := by
    intro V
    rw [step_of_current (i := .BIPUSH) (by simp [current, hbp])]
    simp [exec, fetch, push_int, c0v_push, int2val, sext8_mod, wrap32_eq_self (sext8_isInt32 _)]
    rfl
  have h2 : ∀ V : List (Option c0_value),
      step env { S := [.int (sext8 b)], P := [bp, b, rt], pc := 2, V := V, callStack := [],
                 heap := h }
        = .error (.returned (sext8 b)) := by
    intro V
    rw [step_of_current (i := .RETURN) (by simp [current, hrt])]
    simp [exec, c0v_pop, val2int]
    rfl
  simp only [execute, init, pool_get, hf, hcode, bind, Except.bind, pure, Except.pure, run_succ, h1, h2]

theorem C11_bipush_return_witness :
    (example_env (image_of [⟨0, 0, [0x10, 0x2A, 0xB0]⟩]) false).bc0.function_pool[0]?
      = some ⟨0, 0, [0x10, 0x2A, 0xB0]⟩ ∧
    opcode_table (0x10 % 256) = some .BIPUSH ∧ opcode_table (0xB0 % 256) = some .RETURN ∧
    execute (example_env (image_of [⟨0, 0, [0x10, 0x2A, 0xB0]⟩]) false) empty_heap (0 + 2)
      = .error (.returned (sext8 0x2A)) :=
  ⟨rfl, rfl, rfl,
    (C11_bipush_return (example_env (image_of [⟨0, 0, [0x10, 0x2A, 0xB0]⟩]) false) empty_heap
      ⟨0, 0, [0x10, 0x2A, 0xB0]⟩ 0x10 0x2A 0xB0 0 rfl rfl rfl rfl).1⟩

/-! ## Control flow: conditions, `GOTO`, `ASSERT`, invalid opcodes -/

theorem val_equal_iff (a b : c0_value) :
    val_equal a b = true ↔
      (∃ i j, a = .int i ∧ b = .int j ∧ toU32 i = toU32 j) ∨ (∃ p, a = .ptr p ∧ b = .ptr p) := by
  cases a with
  | int i => cases b with
    | int j => simp [val_equal]
    | ptr q => simp [val_equal]
  | ptr p => cases b with
    | int j => simp [val_equal]
    | ptr q =>
      simp only [val_equal, beq_iff_eq]
      constructor
      · rintro rfl; exact Or.inr ⟨p, rfl, rfl⟩
      · rintro (⟨i, j, h, _⟩ | ⟨r, h1, h2⟩)
        · cases h
        · cases h1; cases h2; rfl

/-- C12: `IF_CMPEQ` pops the two values on top of the stack and takes its branch
exactly when they are equal (both integers with the same bit pattern, or both
references to the same address, null included; an integer and a reference
are unequal), else it continues at `pc + 3`; `IF_CMPNE` takes its branch
exactly when `IF_CMPEQ` does not. The program `BIPUSH 1; BIPUSH 1; IF_CMPEQ
0x00 0x06; BIPUSH 0; RETURN; BIPUSH 99; RETURN` returns 99. -/
theorem C12_if_cmpeq_cmpne (env : Env) (s : State) (op : instructions) (a b : c0_value)
    (rest : List c0_value) (hop : op = .IF_CMPEQ ∨ op = .IF_CMPNE)
    (hcur : current env s = some op) (hS : s.S = a :: b :: rest) :
    (op = .IF_CMPEQ →
      step env s = if val_equal a b then branch_taken { s with S := rest }
        else .ok { s with S := rest, pc := s.pc + 3 }) ∧
    (op = .IF_CMPNE →
      step env s = if val_equal a b then .ok { s with S := rest, pc := s.pc + 3 }
        else branch_taken { s with S := rest }) ∧
    (val_equal a b = true ↔
      (∃ i j, a = .int i ∧ b = .int j ∧ toU32 i = toU32 j) ∨ (∃ p, a = .ptr p ∧ b = .ptr p)) ∧
    (∀ i j, isInt32 i → isInt32 j → (toU32 i = toU32 j ↔ i = j)) ∧
    execute (example_env cmpeq_image false) empty_heap 5 = .error (.returned 99) := by
  rw [step_of_current hcur]
  refine ⟨?_, ?_, val_equal_iff a b, ?_, rfl⟩
  · rintro rfl
    simp only [exec, hS, c0v_pop, bind, Except.bind, pure, Except.pure]
  · rintro rfl
    simp only [exec, hS, c0v_pop, bind, Except.bind, pure, Except.pure]
    cases val_equal a b <;> rfl
  · intro i j hi hj
    unfold isInt32 at hi hj
    unfold toU32
    constructor
    · intro h; omega
    · rintro rfl; rfl

theorem C12_if_cmpeq_cmpne_witness :
    current (example_env cmpeq_image false)
        (state_at [0x10, 1, 0x10, 1, 0x9F, 0x00, 0x06, 0x10, 0, 0xB0, 0x10, 99, 0xB0] 4
          [.int 1, .int 1])
      = some .IF_CMPEQ ∧
    step (example_env cmpeq_image false)
        (state_at [0x10, 1, 0x10, 1, 0x9F, 0x00, 0x06, 0x10, 0, 0xB0, 0x10, 99, 0xB0] 4
          [.int 1, .int 1])
      = if val_equal (.int 1) (.int 1) then
          branch_taken
            { state_at [0x10, 1, 0x10, 1, 0x9F, 0x00, 0x06, 0x10, 0, 0xB0, 0x10, 99, 0xB0] 4
                [.int 1, .int 1] with S := [] }
        else
          .ok { state_at [0x10, 1, 0x10, 1, 0x9F, 0x00, 0x06, 0x10, 0, 0xB0, 0x10, 99, 0xB0] 4
                  [.int 1, .int 1] with S := [], pc := 4 + 3 } :=
  ⟨rfl,
    (C12_if_cmpeq_cmpne (example_env cmpeq_image false)
      (state_at [0x10, 1, 0x10, 1, 0x9F, 0x00, 0x06, 0x10, 0, 0xB0, 0x10, 99, 0xB0] 4
        [.int 1, .int 1])
      .IF_CMPEQ (.int 1) (.int 1) [] (Or.inl rfl) rfl rfl).1 rfl⟩

/-- C13: with `l` pushed first and `r` second, `IF_ICMPLT` takes its branch
exactly when `l < r`, `IF_ICMPGE` when `l >= r`, `IF_ICMPGT` when `l > r` and
`IF_ICMPLE` when `l <= r`, comparing as signed integers; both operands are
popped in every case, and a branch that is not taken continues at `pc + 3`. -/
theorem C13_if_icmp (env : Env) (s : State) (op : instructions) (l r : Int)
    (rest : List c0_value)
    (hop : op = .IF_ICMPLT ∨ op = .IF_ICMPGE ∨ op = .IF_ICMPGT ∨ op = .IF_ICMPLE)
    (hcur : current env s = some op) (hS : s.S = .int r :: .int l :: rest) :
    (op = .IF_ICMPLT →
      step env s = if l < r then branch_taken { s with S := rest }
        else .ok { s with S := rest, pc := s.pc + 3 }) ∧
    (op = .IF_ICMPGE →
      step env s = if l ≥ r then branch_taken { s with S := rest }
        else .ok { s with S := rest, pc := s.pc + 3 }) ∧
    (op = .IF_ICMPGT →
      step env s = if l > r then branch_taken { s with S := rest }
        else .ok { s with S := rest, pc := s.pc + 3 }) ∧
    (op = .IF_ICMPLE →
      step env s = if l ≤ r then branch_taken { s with S := rest }
        else .ok { s with S := rest, pc := s.pc + 3 }) := by
  rw [step_of_current hcur]
  refine ⟨?_, ?_, ?_, ?_⟩ <;> rintro rfl <;>
    simp only [exec, hS, pop_int, c0v_pop, val2int, bind, Except.bind, pure, Except.pure,
      gt_iff_lt, ge_iff_le]

theorem C13_if_icmp_witness :
    current (example_env (image_of []) false) (state_at [0xA1, 0, 6] 0 [.int 2, .int 1])
      = some .IF_ICMPLT ∧
    step (example_env (image_of []) false) (state_at [0xA1, 0, 6] 0 [.int 2, .int 1])
      = if (1 : Int) < 2 then branch_taken { state_at [0xA1, 0, 6] 0 [.int 2, .int 1] with S := [] }
        else .ok { state_at [0xA1, 0, 6] 0 [.int 2, .int 1] with S := [], pc := 0 + 3 } :=
  ⟨rfl,
    (C13_if_icmp (example_env (image_of []) false) (state_at [0xA1, 0, 6] 0 [.int 2, .int 1])
      .IF_ICMPLT 1 2 [] (Or.inl rfl) rfl rfl).1 rfl⟩

/-- C14: a `GOTO` at `pc` with immediate bytes `o1`, `o2` and signed 16-bit
offset `off` such that `pc + off >= 0` continues at exactly `pc + off`, below
`pc` when `o1 >= 0x80` and at or above it otherwise, and changes nothing else
of the state. The code array is a C object, so it has fewer than `2^63`
bytes. -/
theorem C14_goto (env : Env) (s : State) (o1 o2 : Nat)
    (hcur : current env s = some .GOTO)
    (h1 : s.P[s.pc + 1]? = some o1) (h2 : s.P[s.pc + 2]? = some o2)
    (ho1 : o1 < 256) (ho2 : o2 < 256) (hlen : s.P.length < 2 ^ 63)
    (hoff : 0 ≤ (s.pc : Int) + sext16 (o1 <<< 8 ||| o2)) :
    ∃ target : Nat,
      step env s = .ok { s with pc := target } ∧
      (target : Int) = (s.pc : Int) + sext16 (o1 <<< 8 ||| o2) ∧
      (0x80 ≤ o1 → target < s.pc) ∧ (o1 < 0x80 → s.pc ≤ target) := by
  have hpc : s.pc + 2 < s.P.length := by
    rcases Nat.lt_or_ge (s.pc + 2) s.P.length with h | h
    · exact h
    · rw [List.getElem?_eq_none h] at h2; cases h2
  have e1 : o1 % 256 = o1 := Nat.mod_eq_of_lt ho1
  have e2 : o2 % 256 = o2 := Nat.mod_eq_of_lt ho2
  have hor : o1 <<< 8 ||| o2 = o1 * 256 + o2 := shl8_or o1 o2 ho2
  refine ⟨size_t_add s.pc (sext16 (o1 <<< 8 ||| o2)), ?_, ?_, ?_, ?_⟩
  · rw [step_of_current hcur]
    simp only [exec, fetch, h1, h2, bind, Except.bind, pure, Except.pure, e1, e2]
  · rw [hor] at hoff ⊢
    unfold size_t_add
    unfold sext16 at hoff ⊢
    split at hoff <;> omega
  · intro h
    rw [hor] at hoff ⊢
    unfold size_t_add
    unfold sext16 at hoff ⊢
    split at hoff <;> omega
  · intro h
    rw [hor] at hoff ⊢
    unfold size_t_add
    unfold sext16 at hoff ⊢
    split at hoff <;> omega

theorem C14_goto_witness :
    current (example_env (image_of []) false) (state_at [0, 0, 0, 0xA7, 0xFF, 0xFD] 3 [])
      = some .GOTO ∧
    (0 : Int) ≤ ((3 : Nat) : Int) + sext16 (0xFF <<< 8 ||| 0xFD) ∧
    ∃ target : Nat,
      step (example_env (image_of []) false) (state_at [0, 0, 0, 0xA7, 0xFF, 0xFD] 3 [])
        = .ok { state_at [0, 0, 0, 0xA7, 0xFF, 0xFD] 3 [] with pc := target } ∧
      (target : Int) = ((3 : Nat) : Int) + sext16 (0xFF <<< 8 ||| 0xFD) := by
  obtain ⟨t, h1, h2, _⟩ :=
    C14_goto (example_env (image_of []) false) (state_at [0, 0, 0, 0xA7, 0xFF, 0xFD] 3 [])
      0xFF 0xFD rfl rfl rfl (by decide) (by decide) (by decide) (by decide)
  exact ⟨rfl, by decide, t, h1, h2⟩

/-- C17: `ASSERT` on a stack with the message reference `m` on top of the
integer `x` traps with an assertion failure carrying `m` exactly when `x = 0`;
when `x` is not 0 the two operands are popped, `pc` advances by 1 and nothing
else changes. -/
theorem C17_assert (env : Env) (s : State) (x : Int) (m : Nat) (rest : List c0_value)
    (hcur : current env s = some .ASSERT) (hS : s.S = .ptr m :: .int x :: rest) :
    (step env s = .error (.c0_assertion_failure m) ↔ x = 0) ∧
    (x ≠ 0 → step env s = .ok { s with S := rest, pc := s.pc + 1 }) := by
  rw [step_of_current hcur]
  have key : x ≠ 0 → exec env s (some .ASSERT) = .ok { s with S := rest, pc := s.pc + 1 } := by
    intro hx
    simp only [exec, hS, pop_int, pop_ptr, c0v_pop, val2int, val2ptr, bind, Except.bind, pure,
      Except.pure, hx, if_false]
  refine ⟨⟨?_, ?_⟩, key⟩
  · intro h
    by_contra hx
    rw [key hx] at h
    cases h
  · rintro rfl
    simp only [exec, hS, pop_int, pop_ptr, c0v_pop, val2int, val2ptr, bind, Except.bind, pure,
      Except.pure, if_true]

theorem C17_assert_witness :
    current (example_env (image_of []) false) (state_at [0xCF] 0 [.ptr 0x2000, .int 0])
      = some .ASSERT ∧
    (step (example_env (image_of []) false) (state_at [0xCF] 0 [.ptr 0x2000, .int 0])
      = .error (.c0_assertion_failure 0x2000) ↔ (0 : Int) = 0) :=
  ⟨rfl,
    (C17_assert (example_env (image_of []) false) (state_at [0xCF] 0 [.ptr 0x2000, .int 0])
      0 0x2000 [] rfl rfl).1⟩

/-- C18: when the byte `P[pc]` is the value of no `case` label, or of one of the
reserved `CHECKTAG`, `HASTAG`, `ADDTAG`, `ADDROF_STATIC`, `ADDROF_NATIVE`,
`INVOKEDYNAMIC`, the step is the invalid-opcode abort: it yields no next
state and no exit value, and it is none of the arithmetic, memory, assertion
and user traps. -/
theorem C18_invalid_opcode (env : Env) (s : State) (b : Nat)
    (hb : s.P[s.pc]? = some b)
    (hop : env.opcode (b % 256) = none ∨ env.opcode (b % 256) = some .CHECKTAG ∨
      env.opcode (b % 256) = some .HASTAG ∨ env.opcode (b % 256) = some .ADDTAG ∨
      env.opcode (b % 256) = some .ADDROF_STATIC ∨ env.opcode (b % 256) = some .ADDROF_NATIVE ∨
      env.opcode (b % 256) = some .INVOKEDYNAMIC) :
    step env s = .error .invalid_opcode ∧
    (∀ s1, step env s ≠ .ok s1) ∧ (∀ v, step env s ≠ .error (.returned v)) ∧
    step env s ≠ .error .c0_arith_error ∧ step env s ≠ .error .c0_memory_error ∧
    (∀ m, step env s ≠ .error (.c0_assertion_failure m)) ∧
    (∀ m, step env s ≠ .error (.c0_user_error m)) := by
  have h : step env s = .error .invalid_opcode := by
    have e : step env s = exec env s (env.opcode (b % 256)) := by
      simp only [step, fetch, hb]; rfl
    rw [e]
    rcases hop with h | h | h | h | h | h | h <;> rw [h] <;> rfl
  rw [h]
  refine ⟨rfl, ?_, ?_, ?_, ?_, ?_, ?_⟩ <;> intros <;> simp

theorem C18_invalid_opcode_witness :
    (state_at [0xC0] 0 []).P[(state_at [0xC0] 0 []).pc]? = some 0xC0 ∧
    step (example_env (image_of []) false) (state_at [0xC0] 0 []) = .error .invalid_opcode :=
  ⟨rfl,
    (C18_invalid_opcode (example_env (image_of []) false) (state_at [0xC0] 0 []) 0xC0 rfl
      (Or.inr (Or.inl rfl))).1⟩

/-! ## Argument passing with a wide arity -/

theorem arg_loop_count_wide {k : Nat} (h1 : 32769 ≤ k) (h2 : k < 65536) :
    arg_loop_count k = 0 := by
  unfold arg_loop_count sext16 toU16
  split <;> omega

theorem exec_INVOKESTATIC_wide (env : Env) (s : State) (idx : Nat) (fn : function_info)
    (hidx : fetch_index s = .ok idx) (hfn : env.bc0.function_pool[idx]? = some fn)
    (h1 : 32769 ≤ fn.num_args) (h2 : fn.num_args < 65536) :
    exec env s (some .INVOKESTATIC) = .ok
      { S := [], P := fn.code, pc := 0, V := List.replicate (toU16 fn.num_vars) none,
        callStack := { S := s.S, P := s.P, pc := s.pc + 3, V := s.V } :: s.callStack,
        heap := s.heap } := by
  have ha : toU16 fn.num_args = fn.num_args := by unfold toU16; omega
  have hc : ∀ (S : List c0_value) (V : List (Option c0_value)), copy_args 0 S V = .ok (S, V) :=
    fun _ _ => rfl
  simp only [exec, hidx, pool_get, hfn, bind, Except.bind, pure, Except.pure, ha,
    arg_loop_count_wide h1 h2, hc]

theorem exec_INVOKENATIVE_wide (env : Env) (s : State) (idx : Nat) (nat : native_info)
    (hidx : fetch_index s = .ok idx) (hnat : env.bc0.native_pool[idx]? = some nat)
    (h1 : 32769 ≤ nat.num_args) (h2 : nat.num_args < 65536) :
    exec env s (some .INVOKENATIVE) =
      (env.native_function_table (toU16 nat.function_table_index)
          (List.replicate nat.num_args none) s.heap).map
        fun r => { s with S := r.1 :: s.S, pc := s.pc + 3, heap := r.2 } := by
  have ha : toU16 nat.num_args = nat.num_args := by unfold toU16; omega
  have hc : ∀ (S : List c0_value) (V : List (Option c0_value)), copy_args 0 S V = .ok (S, V) :=
    fun _ _ => rfl
  simp only [exec, hidx, pool_get, hnat, bind, Except.bind, pure, Except.pure, ha,
    arg_loop_count_wide h1 h2, hc, c0v_push]
  cases env.native_function_table (toU16 nat.function_table_index)
    (List.replicate nat.num_args none) s.heap <;> rfl

/-- C15: `INVOKESTATIC` and `INVOKENATIVE` should remove `num_args` values from
the operand stack for every 16-bit `num_args`. The loop counter is an
`int16_t` that starts at `num_args - 1`: for `num_args = 40000` it starts
negative and the loop body never runs. On a stack of 40000 values
`INVOKESTATIC` saves the whole stack in the caller's frame and writes no
local, and `INVOKENATIVE` leaves all 40000 values under the result. -/
theorem C15_argument_loop_skipped_for_wide_arity :
    wide_stack.length = 40000 ∧
    step wide_env (state_at [0xB8, 0, 1] 0 wide_stack) = .ok
      { S := [], P := [0xB0], pc := 0, V := List.replicate 40000 none,
        callStack := [{ S := wide_stack, P := [0xB8, 0, 1], pc := 3, V := [] }],
        heap := empty_heap } ∧
    step wide_env (state_at [0xB7, 0, 0] 0 wide_stack) = .ok
      { state_at [0xB7, 0, 0] 0 wide_stack with S := .ptr 0 :: wide_stack, pc := 3 } := by
  have hc1 : current wide_env (state_at [0xB8, 0, 1] 0 wide_stack) = some .INVOKESTATIC := rfl
  have hc2 : current wide_env (state_at [0xB7, 0, 0] 0 wide_stack) = some .INVOKENATIVE := rfl
  refine ⟨List.length_replicate _ _, ?_, ?_⟩
  · rw [step_of_current hc1]
    exact exec_INVOKESTATIC_wide wide_env (state_at [0xB8, 0, 1] 0 wide_stack) 1
      ⟨40000, 40000, [0xB0]⟩ rfl rfl (by decide) (by decide)
  · rw [step_of_current hc2]
    exact exec_INVOKENATIVE_wide wide_env (state_at [0xB7, 0, 0] 0 wide_stack) 0
      ⟨40000, 0⟩ rfl rfl (by decide) (by decide)

/-! ## Memory accesses -/

theorem store_le_outside (n : Nat) : ∀ (m : Nat → Nat) (a v x : Nat), (x < a ∨ a + n ≤ x) →
    store_le m a n v x = m x := by
  induction n with
  | zero => intro m a v x _; rfl
  | succ n ih =>
    intro m a v x hx
    simp only [store_le]
    rw [ih _ _ _ _ (by omega)]
    have : x ≠ a := by omega
    simp [this]

theorem load_le_congr (n : Nat) : ∀ (m m1 : Nat → Nat) (a : Nat),
    (∀ x, a ≤ x → x < a + n → m x = m1 x) → load_le m a n = load_le m1 a n := by
  induction n with
  | zero => intro m m1 a _; rfl
  | succ n ih =>
    intro m m1 a h
    simp only [load_le]
    rw [h a (by omega) (by omega), ih m m1 (a + 1) (fun x h1 h2 => h x (by omega) (by omega))]

theorem load_store_le (n : Nat) : ∀ (m : Nat → Nat) (a v : Nat),
    load_le (store_le m a n v) a n = v % 256 ^ n := by
  induction n with
  | zero => intro m a v; simp [load_le, Nat.mod_one]
  | succ n ih =>
    intro m a v
    simp only [load_le, store_le]
    rw [ih, store_le_outside n _ _ _ _ (by omega)]
    simp only [if_true, Nat.mod_mod]
    rw [Nat.pow_succ, Nat.mul_comm (256 ^ n) 256, Nat.mod_mul]

theorem load_store_ptr (h : Heap) (a b : Nat) (hb : b < 2 ^ 64) :
    load_ptr (store_ptr h a b) a = b := by
  unfold load_ptr store_ptr
  simp only [load_store_le]
  exact Nat.mod_eq_of_lt (by norm_num; omega)

theorem and_0x7F (c : Int) : (toU32 c &&& 0x7F : Nat) = (c % 128).toNat := by
  have : (0x7F : Nat) = 2 ^ 7 - 1 := by norm_num
  rw [this, Nat.and_pow_two_sub_one_eq_mod]
  unfold toU32
  omega

theorem sext8_small {n : Nat} (h : n < 128) : sext8 n = n := by
  unfold sext8
  rw [Nat.mod_eq_of_lt (by omega), if_pos h]

/-- C16: `CMSTORE` with the integer `c` on top of a non-null address `a` stores
the byte `c & 0x7F` (that is `c mod 128`, at most 127) at `a` and changes no
other byte, pops both operands and advances `pc` by 1; a `CMLOAD` from `a` in
the resulting memory pushes that value. -/
theorem C16_cmstore_cmload (env : Env) (s : State) (c : Int) (a : Nat) (rest : List c0_value)
    (hcur : current env s = some .CMSTORE) (hS : s.S = .int c :: .ptr a :: rest) (ha : a ≠ 0) :
    ∃ s1 : State,
      step env s = .ok s1 ∧ s1.S = rest ∧ s1.pc = s.pc + 1 ∧
      s1.heap.mem a = (toU32 c &&& 0x7F) ∧
      (∀ x, x ≠ a → s1.heap.mem x = s.heap.mem x) ∧
      ((toU32 c &&& 0x7F : Nat) : Int) = c % 128 ∧
      (toU32 c &&& 0x7F) ≤ 127 ∧
      (∀ (t : State) (below : List c0_value), current env t = some .CMLOAD →
        t.heap = s1.heap → t.S = .ptr a :: below →
        step env t = .ok { t with S := .int ((toU32 c &&& 0x7F : Nat) : Int) :: below,
                                  pc := t.pc + 1 }) := by
  have hle : (toU32 c &&& 0x7F) ≤ 127 := by rw [and_0x7F]; omega
  have hmod : (toU32 c &&& 0x7F) % 256 = (toU32 c &&& 0x7F) := Nat.mod_eq_of_lt (by omega)
  refine ⟨{ s with S := rest, pc := s.pc + 1, heap := store_char s.heap a (toU32 c &&& 0x7F) },
    ?_, rfl, rfl, ?_, ?_, ?_, hle, ?_⟩
  · rw [step_of_current hcur]
    simp only [exec, hS, pop_int, pop_ptr, c0v_pop, val2int, val2ptr, bind, Except.bind, pure,
      Except.pure, ha, if_false]
  · simp only [store_char, if_true, hmod]
  · intro x hx
    simp only [store_char, hx, if_false]
  · rw [and_0x7F]; omega
  · intro t below ht hheap htS
    rw [step_of_current ht]
    have hload : load_char t.heap a = ((toU32 c &&& 0x7F : Nat) : Int) := by
      rw [hheap]
      simp only [load_char, store_char, if_true, hmod]
      exact sext8_small (by omega)
    simp only [exec, htS, pop_ptr, c0v_pop, val2ptr, bind, Except.bind, pure, Except.pure, ha,
      if_false, hload, push_int, c0v_push, int2val]
    rw [wrap32_eq_self (by unfold isInt32; omega)]

theorem C16_cmstore_cmload_witness :
    current (example_env (image_of []) false) (state_at [0x55] 0 [.int (-1), .ptr 0x1000])
      = some .CMSTORE ∧
    ∃ s1 : State,
      step (example_env (image_of []) false) (state_at [0x55] 0 [.int (-1), .ptr 0x1000])
        = .ok s1 ∧
      s1.heap.mem 0x1000 = (toU32 (-1) &&& 0x7F) ∧ (toU32 (-1) &&& 0x7F) ≤ 127 := by
  obtain ⟨s1, h1, _, _, h2, _, _, h3, _⟩ :=
    C16_cmstore_cmload (example_env (image_of []) false)
      (state_at [0x55] 0 [.int (-1), .ptr 0x1000]) (-1) 0x1000 [] rfl rfl (by decide)
  exact ⟨rfl, s1, h1, h2, h3⟩

/-- C20: `AMSTORE` takes the address `a` from the top of the stack and the
reference `b` to store from beneath it (both non-null): it pops both, stores
`b` in the cell at `a` and leaves every byte outside that cell as it was, so
a cell at `b` apart from it keeps its content and an `AMLOAD` from `a` pushes
`b`. `IMSTORE` and `CMSTORE` on the contrary take the value from the top and
the address from beneath. -/
theorem C20_amstore_operand_order (env : Env) (s : State) (a b : Nat) (rest : List c0_value)
    (hcur : current env s = some .AMSTORE) (hS : s.S = .ptr a :: .ptr b :: rest)
    (ha : a ≠ 0) (hb : b ≠ 0) (hb64 : b < 2 ^ 64) :
    ∃ s1 : State,
      step env s = .ok s1 ∧ s1.S = rest ∧ s1.pc = s.pc + 1 ∧
      load_ptr s1.heap a = b ∧
      (∀ x, x < a ∨ a + 8 ≤ x → s1.heap.mem x = s.heap.mem x) ∧
      (b + 8 ≤ a ∨ a + 8 ≤ b → load_ptr s1.heap b = load_ptr s.heap b) ∧
      (∀ (t : State) (below : List c0_value), current env t = some .AMLOAD →
        t.heap = s1.heap → t.S = .ptr a :: below →
        step env t = .ok { t with S := .ptr b :: below, pc := t.pc + 1 }) ∧
      (∀ (x : Int), exec env { s with S := .int x :: .ptr a :: rest } (some .IMSTORE)
        = .ok { s with S := rest, pc := s.pc + 1, heap := store_int32 s.heap a x }) ∧
      (∀ (x : Int), exec env { s with S := .int x :: .ptr a :: rest } (some .CMSTORE)
        = .ok { s with S := rest, pc := s.pc + 1,
                       heap := store_char s.heap a (toU32 x &&& 0x7F) }) := by
  refine ⟨{ s with S := rest, pc := s.pc + 1, heap := store_ptr s.heap a b },
    ?_, rfl, rfl, load_store_ptr _ _ _ hb64, ?_, ?_, ?_, ?_, ?_⟩
  · rw [step_of_current hcur]
    simp only [exec, hS, pop_ptr, c0v_pop, val2ptr, bind, Except.bind, pure, Except.pure, ha, hb,
      if_false]
  · intro x hx
    exact store_le_outside 8 _ _ _ _ hx
  · intro hd
    unfold load_ptr
    apply load_le_congr
    intro x h1 h2
    exact store_le_outside 8 _ _ _ _ (by omega)
  · intro t below ht hheap htS
    rw [step_of_current ht]
    simp only [exec, htS, pop_ptr, c0v_pop, val2ptr, bind, Except.bind, pure, Except.pure, ha,
      if_false, hheap, load_store_ptr _ _ _ hb64, push_ptr, c0v_push, ptr2val]
  · intro x
    simp only [exec, pop_int, pop_ptr, c0v_pop, val2int, val2ptr, bind, Except.bind, pure,
      Except.pure, ha, if_false]
  · intro x
    simp only [exec, pop_int, pop_ptr, c0v_pop, val2int, val2ptr, bind, Except.bind, pure,
      Except.pure, ha, if_false]

theorem C20_amstore_operand_order_witness :
    current (example_env (image_of []) false) (state_at [0x4F] 0 [.ptr 0x1000, .ptr 0x2000])
      = some .AMSTORE ∧
    ∃ s1 : State,
      step (example_env (image_of []) false) (state_at [0x4F] 0 [.ptr 0x1000, .ptr 0x2000])
        = .ok s1 ∧
      s1.S = [] ∧ load_ptr s1.heap 0x1000 = 0x2000 := by
  obtain ⟨s1, h1, h2, _, h3, _⟩ :=
    C20_amstore_operand_order (example_env (image_of []) false)
      (state_at [0x4F] 0 [.ptr 0x1000, .ptr 0x2000]) 0x1000 0x2000 [] rfl rfl
      (by decide) (by decide) (by decide)
  exact ⟨rfl, s1, h1, h2, h3⟩

/-! ## The program counter -/

theorem branch_taken_P (s s1 : State) (h : branch_taken s = .ok s1) :
    s1.P = s.P ∧ s1.S = s.S := by
  simp only [branch_taken, fetch, bind, Except.bind, pure, Except.pure] at h
  repeat' split at h
  all_goals first | (cases h; done) | (injection h with h; subst h; exact ⟨rfl, rfl⟩)

theorem c0v_pop_tail {S : List c0_value} {v : c0_value × List c0_value}
    (h : c0v_pop S = .ok v) : v.2 = S.drop 1 := by
  cases S with
  | nil => cases h
  | cons x S => cases h; rfl

theorem pop_int_tail {S : List c0_value} {v : Int × List c0_value}
    (h : pop_int S = .ok v) : v.2 = S.drop 1 := by
  cases S with
  | nil => cases h
  | cons x S =>
    cases x with
    | int i => cases h; rfl
    | ptr p => cases h

theorem exec_pc_branch (env : Env) (s s1 : State) (op : instructions)
    (hop : is_conditional_branch op = true) (h : exec env s (some op) = .ok s1) :
    s1.P = s.P ∧
    (s1.pc = s.pc + 3 ∨ Except.ok s1 = branch_taken { s with S := s.S.drop 2 }) := by
  cases op <;> simp only [is_conditional_branch] at hop <;> try (cases hop; done)
  all_goals
    simp only [exec, bind, Except.bind, pure, Except.pure] at h
    repeat' split at h
  all_goals first
    | (cases h; done)
    | (injection h with h; subst h; exact ⟨rfl, Or.inl rfl⟩)
    | (rename_i _ v1 h1 _ v2 h2 _
       have e : v2.2 = s.S.drop 2 := by
         first
           | rw [c0v_pop_tail h2, c0v_pop_tail h1, List.drop_drop]
           | rw [pop_int_tail h2, pop_int_tail h1, List.drop_drop]
       rw [e] at h
       exact ⟨(branch_taken_P _ _ h).1, Or.inr h.symm⟩)

set_option maxHeartbeats 1600000 in
theorem exec_pc (env : Env) (s s1 : State) (op : instructions) (n : Nat)
    (hlen : spec_encoded_length op = some n) (hop : is_conditional_branch op = false)
    (h : exec env s (some op) = .ok s1) :
    s1.P = s.P ∧ s1.pc = s.pc + n := by
  cases op <;> simp only [spec_encoded_length] at hlen <;> cases hlen <;>
    simp only [is_conditional_branch] at hop <;> try (cases hop; done)
  all_goals
    simp only [exec, pop_int, pop_ptr, c0v_pop, val2int, val2ptr, fetch, fetch_index, pool_get,
      bind, Except.bind, pure, Except.pure] at h
    repeat' split at h
  all_goals first
    | (cases h; done)
    | (injection h with h; subst h; exact ⟨rfl, rfl⟩)

/-- C19: an instruction other than `GOTO`, `INVOKESTATIC` and `RETURN` that
completes without a trap has an encoded length `n` in the table of the
specification, leaves the code array `P` as it is, and continues at `pc + n`,
unless it is a conditional branch whose branch is taken. -/
theorem C19_pc_advances_by_encoded_length (env : Env) (s s1 : State) (op : instructions)
    (hcur : current env s = some op) (h : step env s = .ok s1)
    (hg : op ≠ .GOTO) (hi : op ≠ .INVOKESTATIC) (hr : op ≠ .RETURN) :
    ∃ n : Nat, spec_encoded_length op = some n ∧ s1.P = s.P ∧
      (s1.pc = s.pc + n ∨
        (is_conditional_branch op = true ∧
          Except.ok s1 = branch_taken { s with S := s.S.drop 2 })) := by
  rw [step_of_current hcur] at h
  cases hb : is_conditional_branch op with
  | true =>
    have h3 : spec_encoded_length op = some 3 := by
      cases op <;> simp only [is_conditional_branch] at hb <;> first | rfl | (exact Bool.noConfusion hb)
    obtain ⟨hP, hpc⟩ := exec_pc_branch env s s1 op hb h
    refine ⟨3, h3, hP, ?_⟩
    rcases hpc with hpc | hpc
    · exact Or.inl hpc
    · exact Or.inr ⟨rfl, hpc⟩
  | false =>
    cases hl : spec_encoded_length op with
    | some n =>
      obtain ⟨hP, hpc⟩ := exec_pc env s s1 op n hl hb h
      exact ⟨n, rfl, hP, Or.inl hpc⟩
    | none =>
      exfalso
      cases op <;> simp only [spec_encoded_length] at hl <;>
        first
          | (exact Option.noConfusion hl)
          | (exact hg rfl)
          | (exact hi rfl)
          | (exact hr rfl)
          | cases h
          | (simp only [exec, pop_ptr, c0v_pop, val2ptr, bind, Except.bind, pure,
               Except.pure] at h
             repeat' split at h
             all_goals cases h)

theorem C19_pc_advances_by_encoded_length_witness :
    current (example_env (image_of []) false) (state_at [0x10, 5] 0 []) = some .BIPUSH ∧
    ∃ n : Nat, spec_encoded_length .BIPUSH = some n ∧
      ({ state_at [0x10, 5] 0 [] with S := [.int 5], pc := 2 } : State).pc = 0 + n := by
  obtain ⟨n, h1, _, h2⟩ :=
    C19_pc_advances_by_encoded_length (example_env (image_of []) false)
      (state_at [0x10, 5] 0 []) { state_at [0x10, 5] 0 [] with S := [.int 5], pc := 2 }
      .BIPUSH rfl rfl (by decide) (by decide) (by decide)
  rcases h2 with h2 | ⟨h2, _⟩
  · exact ⟨rfl, n, h1, h2⟩
  · cases h2

/-! ## Returning to the caller -/

/-- The stack the argument loop leaves is the stack it got without its top
`n` values, and there were that many. -/
theorem copy_args_drop (n : Nat) : ∀ (S : List c0_value) (V : List (Option c0_value))
    (S1 : List c0_value) (V1 : List (Option c0_value)),
    copy_args n S V = .ok (S1, V1) → n ≤ S.length ∧ S1 = S.drop n := by
  induction n with
  | zero =>
    intro S V S1 V1 h
    cases h
    exact ⟨Nat.zero_le _, rfl⟩
  | succ n ih =>
    intro S V S1 V1 h
    cases S with
    | nil => cases h
    | cons x S =>
      simp only [copy_args] at h
      split at h
      · obtain ⟨h1, h2⟩ := ih _ _ _ _ h
        exact ⟨by simpa using h1, by simpa using h2⟩
      · cases h

/-- The frame a successful `INVOKESTATIC` pushes: the caller's stack without the
values the argument loop popped, the caller's code and locals, and the address
after the instruction. -/
theorem exec_INVOKESTATIC_frame (env : Env) (c c1 : State) (idx : Nat) (fn : function_info)
    (hidx : fetch_index c = .ok idx) (hfn : env.bc0.function_pool[idx]? = some fn)
    (h : exec env c (some .INVOKESTATIC) = .ok c1) :
    arg_loop_count (toU16 fn.num_args) ≤ c.S.length ∧
    c1.callStack =
      { S := c.S.drop (arg_loop_count (toU16 fn.num_args)), P := c.P, pc := c.pc + 3,
        V := c.V } :: c.callStack := by
  simp only [exec, hidx, pool_get, hfn, bind, Except.bind, pure, Except.pure] at h
  split at h
  · cases h
  · rename_i r hr
    obtain ⟨S1, V1⟩ := r
    obtain ⟨h1, h2⟩ := copy_args_drop _ _ _ _ _ hr
    injection h with h
    subst h
    exact ⟨h1, by rw [h2]⟩

/-- The `BIPUSH` case. -/
theorem exec_BIPUSH (env : Env) (s : State) (b : Nat) (hb : s.P[s.pc + 1]? = some b) :
    exec env s (some .BIPUSH) = .ok { s with S := .int (sext8 b) :: s.S, pc := s.pc + 2 } := by
  simp only [exec, fetch, hb, bind, Except.bind, pure, Except.pure, push_int, c0v_push, int2val,
    sext8_mod, wrap32_eq_self (sext8_isInt32 _)]

/-- C10 (as stated): `RETURN` with a frame on the call stack and the return
value on top of the operand stack should always resume the caller, with the
caller's stack without the arguments plus the return value. First, in a build
with `DEBUG` the `ASSERT` that the callee's stack is empty after the pop stops
the run instead: the callee `VLOAD 0; VLOAD 0; RETURN` reaches its `RETURN` with
`3` on top of one more value, and the step and the whole run end in an
assertion violation. Second, a callee with 40000 arguments is entered without
any argument being popped: when `BIPUSH 9; RETURN` returns to a caller that
had pushed 40000 values, the caller resumes at `pc = 3` with 9 on top of all
40000 of them. -/
theorem C10_return_does_not_always_restore_caller :
    current (example_env leftover_image true) leftover_state = some .RETURN ∧
    observe (run (example_env leftover_image true) 4
        { state_at [0x10, 3, 0xB8, 0, 1, 0xB0] 0 [] with V := [] })
      = observe (.ok leftover_state) ∧
    step (example_env leftover_image true) leftover_state = .error .assertion_violation ∧
    execute (example_env leftover_image true) empty_heap 5 = .error .assertion_violation ∧
    step (example_env wide_call_image false) (state_at [0xB8, 0, 1, 0xB0] 0 wide_stack)
      = .ok wide_entered ∧
    step (example_env wide_call_image false) wide_entered = .ok wide_returning ∧
    step (example_env wide_call_image false) wide_returning
      = .ok (state_at [0xB8, 0, 1, 0xB0] 3 (.int 9 :: wide_stack)) ∧
    run (example_env wide_call_image false) 3 (state_at [0xB8, 0, 1, 0xB0] 0 wide_stack)
      = .ok (state_at [0xB8, 0, 1, 0xB0] 3 (.int 9 :: wide_stack)) ∧
    (c0_value.int 9 :: wide_stack).length = 40001 := by
  have hc1 : current (example_env wide_call_image false)
      (state_at [0xB8, 0, 1, 0xB0] 0 wide_stack) = some .INVOKESTATIC := rfl
  have hc2 : current (example_env wide_call_image false) wide_entered = some .BIPUSH := rfl
  have hc3 : current (example_env wide_call_image false) wide_returning = some .RETURN := rfl
  have h1 : step (example_env wide_call_image false) (state_at [0xB8, 0, 1, 0xB0] 0 wide_stack)
      = .ok wide_entered := by
    rw [step_of_current hc1]
    exact exec_INVOKESTATIC_wide (example_env wide_call_image false)
      (state_at [0xB8, 0, 1, 0xB0] 0 wide_stack) 1 ⟨40000, 40000, [0x10, 9, 0xB0]⟩ rfl rfl
      (by decide) (by decide)
  have h2 : step (example_env wide_call_image false) wide_entered = .ok wide_returning := by
    rw [step_of_current hc2]
    exact exec_BIPUSH (example_env wide_call_image false) wide_entered 9 rfl
  have h3 : step (example_env wide_call_image false) wide_returning
      = .ok (state_at [0xB8, 0, 1, 0xB0] 3 (.int 9 :: wide_stack)) := by
    rw [step_of_current hc3]
    exact exec_RETURN (example_env wide_call_image false) wide_returning
      { S := wide_stack, P := [0xB8, 0, 1, 0xB0], pc := 3, V := [] } [] (.int 9) [] rfl rfl
      (Or.inl rfl)
  refine ⟨rfl, rfl, rfl, rfl, h1, h2, h3, ?_, ?_⟩
  · show run (example_env wide_call_image false) (2 + 1) _ = _
    rw [run_succ, h1]
    show run (example_env wide_call_image false) (1 + 1) wide_entered = _
    rw [run_succ, h2]
    show run (example_env wide_call_image false) (0 + 1) wide_returning = _
    rw [run_succ, h3]
    rfl
  · rw [List.length_cons]
    exact congrArg (· + 1) (List.length_replicate _ _)

/-- C10 (amended): `RETURN` with return value `v` on top of the operand stack,
when `v` is the only value on that stack or the build has no `DEBUG`: if the
call stack is `f :: cs` the next state has operand stack `f.S` with `v` pushed,
code `f.P`, program counter `f.pc`, locals `f.V` and call stack `cs`; so a
callee with at most 32768 arguments that was entered by an `INVOKESTATIC` at
address `p` of a caller `c` resumes `c` at `p + 3` with the locals of `c` and
the stack of `c` without the arguments plus `v`; and the call example returns
7 in both builds. -/
theorem C10_return_restores_caller (env : Env) (s : State) (v : c0_value) (rest : List c0_value)
    (hcur : current env s = some .RETURN) (hS : s.S = v :: rest)
    (hdbg : env.DEBUG = false ∨ rest = []) :
    (∀ (f : frame) (cs : List frame), s.callStack = f :: cs →
      step env s = .ok
        { S := v :: f.S, P := f.P, pc := f.pc, V := f.V, callStack := cs, heap := s.heap }) ∧
    (∀ (c c1 : State) (idx : Nat) (fn : function_info),
      current env c = some .INVOKESTATIC → fetch_index c = .ok idx →
      env.bc0.function_pool[idx]? = some fn → fn.num_args ≤ 32768 →
      step env c = .ok c1 → s.callStack = c1.callStack →
      fn.num_args ≤ c.S.length ∧
      step env s = .ok
        { S := v :: c.S.drop fn.num_args, P := c.P, pc := c.pc + 3, V := c.V,
          callStack := c.callStack, heap := s.heap }) ∧
    execute (example_env call_image false) empty_heap 8 = .error (.returned 7) ∧
    execute (example_env call_image true) empty_heap 8 = .error (.returned 7) := by
  refine ⟨?_, ?_, rfl, rfl⟩
  · intro f cs hcs
    rw [step_of_current hcur]
    exact exec_RETURN env s f cs v rest hS hcs hdbg
  · intro c c1 idx fn hc hidx hfn hk hstep hcs
    rw [step_of_current hc] at hstep
    obtain ⟨hlen, hframe⟩ := exec_INVOKESTATIC_frame env c c1 idx fn hidx hfn hstep
    have hu : toU16 fn.num_args = fn.num_args := by unfold toU16; omega
    rw [hu, arg_loop_count_eq hk] at hlen hframe
    refine ⟨hlen, ?_⟩
    rw [step_of_current hcur]
    exact exec_RETURN env s _ c.callStack v rest hS (hcs.trans hframe) hdbg

theorem C10_return_restores_caller_witness :
    current (example_env call_image true) return_state = some .RETURN ∧
    return_state.S = [.int 7] ∧
    step (example_env call_image true) return_state = .ok
      { S := [.int 7], P := [0x10, 3, 0x10, 4, 0xB8, 0, 1, 0xB0], pc := 7, V := [],
        callStack := [], heap := return_state.heap } :=
  ⟨rfl, rfl,
    (C10_return_restores_caller (example_env call_image true) return_state (.int 7) []
      rfl rfl (Or.inr rfl)).1 _ [] rfl⟩

/-- The locals of function 0 start as the integer 0: `VLOAD 0; RETURN` returns 0. -/
theorem execute_reads_zeroed_local :
    execute (example_env vload_image false) empty_heap 2 = .error (.returned 0) :=
  rfl

end C0VM
